import Mathlib

/-!
# Opacity pruning of a Gaussian-splat scene

Shallow embedding of `src/Pruning/pruning_by_opacity.cpp`.

* `float` values are elements of a type `F` with the operations of `FloatOps`.  The
  program only copies them, compares them with `<` (inside the sort) and evaluates
  `1.0f / (1.0f + std::exp(-v))`.  What holds for every value type is stated for every
  `F`; what depends on the values is stated for `F32`, the IEEE 754 binary32 values with
  round-to-nearest-even arithmetic, NaN included.
* `size_t` values are natural numbers below `2 ^ 64`; products, sums and differences
  are reduced modulo `2 ^ 64` where the source computes them in `size_t`.
* `std::vector` is `List`; `v[i]` outside the vector has no defined result and is
  `none` in the `Option` monad.  `reserve` beyond `max_size()` throws, which ends the run
  before anything is written; this is `none` as well.
* The PLY library is a boundary: the loaded file is the record `Columns` of the arrays
  `main` obtains from `getProperty`, and a written file is the record `PlyFile` of
  what `write_pruned_ply` hands to `addElement`, `addProperty` and `write`.
-/

set_option exponentiation.threshold 512

namespace PruneOpacity

/-- Operations on `float` used by `main`: `0.0f` (the fill value of `resize`), `1.0f`,
unary minus, `+`, `/`, `std::exp` and the comparison `<`. -/
class FloatOps (F : Type) where
  zero : F
  one : F
  neg : F → F
  add : F → F → F
  div : F → F → F
  exp : F → F
  lt : F → F → Bool

/-! ## IEEE 754 binary32 -/

/-- A binary32 value: the sign bit and the 31 bits below it (8 exponent bits, 23
fraction bits) read as a number, the magnitude.  Magnitudes above that of infinity are
NaN. -/
structure F32 where
  sign : Bool
  mag : Nat
  deriving DecidableEq, Repr

/-- Magnitude bits of infinity, `0x7F800000`. -/
def F32.INF_MAG : Nat := 0x7F800000

/-- Magnitude bits of `1.0f`, `0x3F800000`. -/
def F32.ONE_MAG : Nat := 0x3F800000

/-- NaN test: exponent all ones and a non-zero fraction. -/
def F32.isNaN (a : F32) : Bool := decide (F32.INF_MAG < a.mag)

/-- Infinity test. -/
def F32.isInf (a : F32) : Bool := decide (a.mag = F32.INF_MAG)

/-- The quiet NaN produced by an invalid operation. -/
def F32.nan : F32 := { sign := false, mag := 0x7FC00000 }

/-- The absolute value of a finite binary32 with magnitude bits `mag`, in units of
`2 ^ (-149)`: `fraction` for a subnormal, `(2 ^ 23 + fraction) * 2 ^ (exponent - 1)`
otherwise.  At `INF_MAG` it is `2 ^ 277`, the first magnitude too large to represent. -/
def F32.scaled (mag : Nat) : Nat :=
  if mag / 2 ^ 23 = 0 then mag else (2 ^ 23 + mag % 2 ^ 23) * 2 ^ (mag / 2 ^ 23 - 1)

/-- Sign-magnitude reading of the bits: binary32 values that are not NaN compare as
these integers do (`-0` and `+0` both read 0). -/
def F32.key (a : F32) : Int := if a.sign then -(a.mag : Int) else (a.mag : Int)

/-- The comparison `a < b` of IEEE 754: false as soon as one side is NaN. -/
def F32.lt (a b : F32) : Bool := !a.isNaN && !b.isNaN && decide (a.key < b.key)

/-- The comparison `a <= b` of IEEE 754: false as soon as one side is NaN. -/
def F32.le (a b : F32) : Bool := !a.isNaN && !b.isNaN && decide (a.key ≤ b.key)

/-- The greatest `e' ≤ e` with `2 ^ (22 + e') ≤ n`, or 0: the exponent field of the
binary32 just below `n * 2 ^ (-149)`. -/
def F32.floorExp : Nat → Nat → Nat
  | 0, _ => 0
  | e + 1, n => if 2 ^ (23 + e) ≤ n then e + 1 else F32.floorExp e n

/-- Round to nearest, ties to even: the magnitude bits of the binary32 nearest to
`(p / q) * 2 ^ (-149)` for `q > 0`, infinity when the rounded value is too large. -/
def F32.round (p q : Nat) : Nat :=
  let n := p / q
  let e := F32.floorExp 254 n
  let u := 2 ^ (e - 1)
  let m := n / u
  let k := if e = 0 then n else e * 2 ^ 23 + (m - 2 ^ 23)
  let rem2 := 2 * (p - m * u * q)
  let up := if u * q < rem2 then 1 else if rem2 = u * q then k % 2 else 0
  min F32.INF_MAG (k + up)

/-- Unary minus: the sign bit is flipped. -/
def F32.neg (a : F32) : F32 := { sign := !a.sign, mag := a.mag }

/-- The value of a finite binary32 in units of `2 ^ (-149)`, with its sign. -/
def F32.signedScaled (a : F32) : Int :=
  if a.sign then -(F32.scaled a.mag : Int) else (F32.scaled a.mag : Int)

/-- Addition of IEEE 754: a NaN operand is returned, `inf + (-inf)` is NaN, an exact
zero sum is `-0` only when both operands are negative, any other sum is rounded. -/
def F32.add (a b : F32) : F32 :=
  if a.isNaN then a
  else if b.isNaN then b
  else if a.isInf then (if b.isInf && (a.sign != b.sign) then F32.nan else a)
  else if b.isInf then b
  else if F32.signedScaled a + F32.signedScaled b = 0 then
    { sign := a.sign && b.sign, mag := 0 }
  else
    { sign := decide (F32.signedScaled a + F32.signedScaled b < 0),
      mag := F32.round (F32.signedScaled a + F32.signedScaled b).natAbs 1 }

/-- Division of IEEE 754: a NaN operand is returned, `inf / inf` and `0 / 0` are NaN,
`x / 0` is an infinity, `x / inf` a zero, any other quotient is rounded. -/
def F32.div (a b : F32) : F32 :=
  if a.isNaN then a
  else if b.isNaN then b
  else if a.isInf then
    (if b.isInf then F32.nan else { sign := a.sign != b.sign, mag := F32.INF_MAG })
  else if b.isInf then { sign := a.sign != b.sign, mag := 0 }
  else if b.mag = 0 then
    (if a.mag = 0 then F32.nan else { sign := a.sign != b.sign, mag := F32.INF_MAG })
  else
    { sign := a.sign != b.sign,
      mag := F32.round (F32.scaled a.mag * 2 ^ 149) (F32.scaled b.mag) }

/-- The sum of `t ^ k / k!` for `k ≤ 40`, in fixed point with 200 fraction bits
(`t` and the result are in units of `2 ^ (-200)`). -/
def F32.expTaylor (t : Nat) : Nat :=
  ((List.range 40).foldl
    (fun (acc : Nat × Nat) k => (acc.1 + acc.2 * t / 2 ^ 200 / (k + 1), acc.2 * t / 2 ^ 200 / (k + 1)))
    (2 ^ 200, 2 ^ 200)).1

/-- An approximation of `e ^ (m * 2 ^ (-149))` in units of `2 ^ (-200)`, for
`m * 2 ^ (-149) < 128`: the series at the argument divided by 256, squared 8 times. -/
def F32.expFix (m : Nat) : Nat :=
  (List.range 8).foldl (fun v _ => v * v / 2 ^ 200) (F32.expTaylor (m * 2 ^ 43))

/-- Modelled from the C library: `std::exp` on `float`.  The values fixed by the C
standard are kept (`exp(NaN)` is NaN, `exp(-inf) = +0`, `exp(+inf) = +inf`,
`exp(±0) = 1`); from `|x| ≥ 128` on the result is `+0` or `+inf`; elsewhere it is the
binary32 nearest to `e ^ x`, computed from `expFix`, whose relative error is below
`2 ^ (-180)`.  The library's result may differ from it in the last bit. -/
def F32.exp (a : F32) : F32 :=
  if a.isNaN then a
  else if 2 ^ 156 ≤ F32.scaled a.mag then
    (if a.sign then { sign := false, mag := 0 } else { sign := false, mag := F32.INF_MAG })
  else if a.sign then
    { sign := false, mag := F32.round (2 ^ 349) (F32.expFix (F32.scaled a.mag)) }
  else
    { sign := false, mag := F32.round (F32.expFix (F32.scaled a.mag) * 2 ^ 149) (2 ^ 200) }

/-- The binary32 arithmetic of the program. -/
instance F32.floatOps : FloatOps F32 where
  zero := { sign := false, mag := 0 }
  one := { sign := false, mag := F32.ONE_MAG }
  neg := F32.neg
  add := F32.add
  div := F32.div
  exp := F32.exp
  lt := F32.lt

/-! ## The program -/

/-- The record `struct Gaussian` (source lines 10-19). -/
structure Gaussian (F : Type) where
  x : F
  y : F
  z : F
  nxx : F
  ny : F
  nz : F
  f_dc_0 : F
  f_dc_1 : F
  f_dc_2 : F
  f_rest : List F
  opacity_logit : F
  scale_0 : F
  scale_1 : F
  scale_2 : F
  rot_0 : F
  rot_1 : F
  rot_2 : F
  rot_3 : F
  actual_opacity : F
  deriving DecidableEq, Repr

/-- The per-attribute arrays: the locals `x, y, ..., rot_3, f_rest_all` of `main`
(lines 89-110) and of `write_pruned_ply` (lines 30-32). -/
@[ext]
structure Columns (F : Type) where
  x : List F
  y : List F
  z : List F
  nxx : List F
  ny : List F
  nz : List F
  f_dc_0 : List F
  f_dc_1 : List F
  f_dc_2 : List F
  opacity : List F
  scale_0 : List F
  scale_1 : List F
  scale_2 : List F
  rot_0 : List F
  rot_1 : List F
  rot_2 : List F
  rot_3 : List F
  f_rest_all : List (List F)
  deriving DecidableEq, Repr

/-- The path `output_dir / output_filename` of line 149, kept as its two operands. -/
structure OutputPath where
  output_dir : String
  output_filename : String
  deriving DecidableEq, Repr

/-- What `write_pruned_ply` hands to the PLY writer: the path of `plyOut.write`, the
count of `addElement("vertex", count)` and the `addProperty` calls in order. -/
structure PlyFile (F : Type) where
  path : OutputPath
  count : Nat
  properties : List (String × List F)
  deriving DecidableEq, Repr

/-- The loop `for (i = 0; i < n; ++i) body` threading the state `s`; a failing
iteration fails the loop. -/
def forRange {σ : Type} (n : Nat) (body : Nat → σ → Option σ) (s : σ) : Option σ :=
  (List.range n).foldlM (fun s i => body i s) s

/-- Modulus of `size_t` arithmetic. -/
def SIZE_MOD : Nat := 2 ^ 64

/-- The value of `sizeof(Gaussian)` on the LP64 targets of the program: nine floats,
four bytes of padding, the 24-byte `std::vector<float>`, nine floats, four bytes of
padding. -/
def SIZEOF_GAUSSIAN : Nat := 104

/-- The value of `std::vector<Gaussian>::max_size()`: `PTRDIFF_MAX / sizeof(Gaussian)`.
`all_gaussians.reserve(original_count)` (line 116) throws `std::length_error` for a
larger count, so this is the largest point count the program can hold. -/
def MAX_SIZE : Nat := (2 ^ 63 - 1) / SIZEOF_GAUSSIAN

/-- Conversion of an `int` to `size_t` (the usual arithmetic conversion applied to
`percentage` in `original_count * percentage`). -/
def toSizeT (i : Int) : Nat := (i % (SIZE_MOD : Int)).toNat

/-- Line 143: `size_t num_to_remove = original_count * percentage / 100;`. -/
def num_to_remove (original_count : Nat) (percentage : Int) : Nat :=
  (original_count * toSizeT percentage) % SIZE_MOD / 100

/-- Line 144: `size_t num_to_keep = original_count - num_to_remove;`. -/
def num_to_keep (original_count : Nat) (percentage : Int) : Nat :=
  (original_count + SIZE_MOD - num_to_remove original_count percentage) % SIZE_MOD

/-- Line 130: `1.0f / (1.0f + std::exp(-opacity_logit))`. -/
def sigmoid {F : Type} [FloatOps F] (opacity_logit : F) : F :=
  FloatOps.div FloatOps.one (FloatOps.add FloatOps.one (FloatOps.exp (FloatOps.neg opacity_logit)))

/-- Lines 126-127: `g.f_rest.resize(45); for (j < 45) g.f_rest[j] = f_rest_all[j][i];`. -/
def assemble_f_rest {F : Type} [FloatOps F] (f_rest_all : List (List F)) (i : Nat) :
    Option (List F) :=
  forRange 45 (fun j f_rest => do
    let col ← f_rest_all[j]?
    let v ← col[i]?
    pure (f_rest.set j v)) (List.replicate 45 FloatOps.zero)

/-- Body of the assembling loop, lines 119-130: the record built from row `i`; it
exists when every read `x[i]`, `y[i]`, ..., `f_rest_all[j][i]` is inside its vector. -/
def assemble_one {F : Type} [FloatOps F] (a : Columns F) (i : Nat) : Option (Gaussian F) :=
  match a.x[i]?, a.y[i]?, a.z[i]?, a.nxx[i]?, a.ny[i]?, a.nz[i]?,
    a.f_dc_0[i]?, a.f_dc_1[i]?, a.f_dc_2[i]?, a.opacity[i]?, a.scale_0[i]?, a.scale_1[i]?,
    a.scale_2[i]?, a.rot_0[i]?, a.rot_1[i]?, a.rot_2[i]?, a.rot_3[i]?,
    assemble_f_rest a.f_rest_all i with
  | some x, some y, some z, some nxx, some ny, some nz,
    some f_dc_0, some f_dc_1, some f_dc_2, some opacity_logit, some scale_0, some scale_1,
    some scale_2, some rot_0, some rot_1, some rot_2, some rot_3,
    some f_rest =>
    some { x := x, y := y, z := z, nxx := nxx, ny := ny, nz := nz,
           f_dc_0 := f_dc_0, f_dc_1 := f_dc_1, f_dc_2 := f_dc_2, f_rest := f_rest,
           opacity_logit := opacity_logit,
           scale_0 := scale_0, scale_1 := scale_1, scale_2 := scale_2,
           rot_0 := rot_0, rot_1 := rot_1, rot_2 := rot_2, rot_3 := rot_3,
           actual_opacity := sigmoid opacity_logit }
  | _, _, _, _, _, _, _, _, _, _, _, _, _, _, _, _, _, _ => none

/-- The assembling loop, lines 118-132, for `original_count = x.size()`: one
`push_back` per row. -/
def assemble {F : Type} [FloatOps F] (a : Columns F) : Option (List (Gaussian F)) :=
  forRange a.x.length (fun i all_gaussians => do
    let g ← assemble_one a i
    pure (all_gaussians ++ [g])) []

/-- The loop of `__unguarded_linear_insert`, on the sorted prefix read from its last
element backwards: `val` moves in front of every element `next` with `comp val next`
and stops at the first one without. -/
def linear_insert {α : Type} (comp : α → α → Bool) (val : α) : List α → List α
  | [] => [val]
  | next :: rest =>
    if comp val next then next :: linear_insert comp val rest else val :: next :: rest

/-- One pass of `__insertion_sort`: `val` goes to the front when `comp val first`,
otherwise it is inserted from the back. -/
def insertion_step {α : Type} (comp : α → α → Bool) (sorted : List α) (val : α) : List α :=
  match sorted with
  | [] => [val]
  | first :: rest =>
    if comp val first then val :: first :: rest
    else (linear_insert comp val (first :: rest).reverse).reverse

/-- Modelled from the C++ library: the call `std::sort(first, last, comp)` as the
insertion sort of libstdc++.  For at most 16 elements that is what `std::sort` runs; for
longer ranges `std::sort` partitions first, which gives the same result up to the order
of elements that `comp` does not separate whenever `comp` is a strict weak ordering. -/
def std_sort {α : Type} (comp : α → α → Bool) (l : List α) : List α :=
  l.foldl (insertion_step comp) []

/-- The ranking step, lines 135-137: sort by `a.actual_opacity < b.actual_opacity`, the
comparison of `float`. -/
def rank {F : Type} [FloatOps F] (all_gaussians : List (Gaussian F)) : List (Gaussian F) :=
  std_sort (fun a b => FloatOps.lt a.actual_opacity b.actual_opacity) all_gaussians

/-- The columns of `write_pruned_ply` before its loop (lines 30-32): seventeen empty
vectors and `f_rest_all(45)`. -/
def Columns.init (F : Type) : Columns F :=
  { x := [], y := [], z := [], nxx := [], ny := [], nz := [],
    f_dc_0 := [], f_dc_1 := [], f_dc_2 := [], opacity := [],
    scale_0 := [], scale_1 := [], scale_2 := [],
    rot_0 := [], rot_1 := [], rot_2 := [], rot_3 := [],
    f_rest_all := List.replicate 45 [] }

/-- Lines 45-47: `for (j < 45) f_rest_all[j].push_back(g.f_rest[j]);`. -/
def push_f_rest {F : Type} (g : Gaussian F) (f_rest_all : List (List F)) :
    Option (List (List F)) :=
  forRange 45 (fun j f_rest_all => do
    let v ← g.f_rest[j]?
    let col ← f_rest_all[j]?
    pure (f_rest_all.set j (col ++ [v]))) f_rest_all

/-- Body of the loop of `write_pruned_ply`, lines 35-47. -/
def write_loop_body {F : Type} (gaussians : List (Gaussian F)) (start_index : Nat)
    (i : Nat) (c : Columns F) : Option (Columns F) := do
  let g ← gaussians[(start_index + i) % SIZE_MOD]?
  let f_rest_all ← push_f_rest g c.f_rest_all
  pure { x := c.x ++ [g.x], y := c.y ++ [g.y], z := c.z ++ [g.z],
         nxx := c.nxx ++ [g.nxx], ny := c.ny ++ [g.ny], nz := c.nz ++ [g.nz],
         f_dc_0 := c.f_dc_0 ++ [g.f_dc_0], f_dc_1 := c.f_dc_1 ++ [g.f_dc_1],
         f_dc_2 := c.f_dc_2 ++ [g.f_dc_2],
         opacity := c.opacity ++ [g.opacity_logit],
         scale_0 := c.scale_0 ++ [g.scale_0], scale_1 := c.scale_1 ++ [g.scale_1],
         scale_2 := c.scale_2 ++ [g.scale_2],
         rot_0 := c.rot_0 ++ [g.rot_0], rot_1 := c.rot_1 ++ [g.rot_1],
         rot_2 := c.rot_2 ++ [g.rot_2], rot_3 := c.rot_3 ++ [g.rot_3],
         f_rest_all := f_rest_all }

/-- Lines 30-48 of `write_pruned_ply`: the arrays filled from
`gaussians[start_index .. start_index + count)`. -/
def write_columns {F : Type} (gaussians : List (Gaussian F)) (start_index count : Nat) :
    Option (Columns F) :=
  forRange count (write_loop_body gaussians start_index) (Columns.init F)

/-- Lines 59-61: `addProperty("f_rest_" + std::to_string(i), f_rest_all[i])` for `i < 45`. -/
def add_f_rest_properties {F : Type} (f_rest_all : List (List F))
    (properties : List (String × List F)) : Option (List (String × List F)) :=
  forRange 45 (fun i properties => do
    let col ← f_rest_all[i]?
    pure (properties ++ [("f_rest_" ++ toString i, col)])) properties

/-- The function `write_pruned_ply` (lines 21-73), up to the writer call. -/
def write_pruned_ply {F : Type} (path : OutputPath) (gaussians : List (Gaussian F))
    (start_index count : Nat) : Option (PlyFile F) := do
  let c ← write_columns gaussians start_index count
  let properties ← add_f_rest_properties c.f_rest_all
    [("x", c.x), ("y", c.y), ("z", c.z), ("nxx", c.nxx), ("ny", c.ny), ("nz", c.nz),
     ("f_dc_0", c.f_dc_0), ("f_dc_1", c.f_dc_1), ("f_dc_2", c.f_dc_2)]
  pure { path := path, count := count,
         properties := properties ++
           [("opacity", c.opacity), ("scale_0", c.scale_0), ("scale_1", c.scale_1),
            ("scale_2", c.scale_2), ("rot_0", c.rot_0), ("rot_1", c.rot_1),
            ("rot_2", c.rot_2), ("rot_3", c.rot_3)] }

/-- Line 139: the percentages processed by `main`. -/
def percentages_to_prune : List Int := [10, 20, 30, 40, 50]

/-- Line 148: `base_name + "_pruned_opacity_" + std::to_string(percentage) + ".ply"`. -/
def output_filename (base_name : String) (percentage : Int) : String :=
  base_name ++ "_pruned_opacity_" ++ toString percentage ++ ".ply"

/-- One pass of the loop of lines 142-151 over the ranked vector. -/
def prune_one {F : Type} (base_name output_dir : String) (all_gaussians : List (Gaussian F))
    (original_count : Nat) (percentage : Int) : Option (PlyFile F) :=
  let num_to_remove := num_to_remove original_count percentage
  let num_to_keep := num_to_keep original_count percentage
  let start_index := num_to_remove
  write_pruned_ply { output_dir := output_dir,
                     output_filename := output_filename base_name percentage }
    all_gaussians start_index num_to_keep

/-- The body of `main` after loading (lines 112-151): reserve, assemble, rank, and
write one file per percentage.  The result lists the files written, in order; it is
`none` when `reserve` throws (the exception is caught at line 153 and nothing is
written) and when a read falls outside a vector. -/
def main_body {F : Type} [FloatOps F] (base_name output_dir : String)
    (a : Columns F) : Option (List (PlyFile F)) :=
  let original_count := a.x.length
  if MAX_SIZE < original_count then none
  else do
    let all_gaussians ← assemble a
    let all_gaussians := rank all_gaussians
    percentages_to_prune.mapM (prune_one base_name output_dir all_gaussians original_count)

/-! ## Auxiliary vocabulary for the statements -/

/-- The records `write_pruned_ply` reads: `gaussians[start_index + i]` for `i < count`
(line 35), in that order. -/
def kept_slice {F : Type} (gaussians : List (Gaussian F)) (start_index count : Nat) :
    List (Gaussian F) :=
  (gaussians.drop start_index).take count

/-! ## Sample data for the worked scenarios -/

/-- The non-negative binary32 value with the given bits. -/
def F32.pos (bits : Nat) : F32 := { sign := false, mag := bits }

/-- A record with the given logit and visibility; every other attribute is `0.0f` and
`f_rest` has its 45 entries. -/
def sample_gaussian (opacity_logit actual_opacity : F32) : Gaussian F32 :=
  { x := F32.pos 0, y := F32.pos 0, z := F32.pos 0,
    nxx := F32.pos 0, ny := F32.pos 0, nz := F32.pos 0,
    f_dc_0 := F32.pos 0, f_dc_1 := F32.pos 0, f_dc_2 := F32.pos 0,
    f_rest := List.replicate 45 (F32.pos 0),
    opacity_logit := opacity_logit,
    scale_0 := F32.pos 0, scale_1 := F32.pos 0, scale_2 := F32.pos 0,
    rot_0 := F32.pos 0, rot_1 := F32.pos 0, rot_2 := F32.pos 0, rot_3 := F32.pos 0,
    actual_opacity := actual_opacity }

/-- Three records, not in visibility order: logits `3.0f, 1.0f, 2.0f` with
visibilities `0.3f, 0.1f, 0.2f`. -/
def three_points : List (Gaussian F32) :=
  [sample_gaussian (F32.pos 0x40400000) (F32.pos 0x3E99999A),
   sample_gaussian (F32.pos 0x3F800000) (F32.pos 0x3DCCCCCD),
   sample_gaussian (F32.pos 0x40000000) (F32.pos 0x3E4CCCCD)]

/-- Ten records with visibilities `0.1f, 0.2f, ..., 1.0f`, already in ascending order. -/
def ten_points : List (Gaussian F32) :=
  [sample_gaussian (F32.pos 0) (F32.pos 0x3DCCCCCD),
   sample_gaussian (F32.pos 0) (F32.pos 0x3E4CCCCD),
   sample_gaussian (F32.pos 0) (F32.pos 0x3E99999A),
   sample_gaussian (F32.pos 0) (F32.pos 0x3ECCCCCD),
   sample_gaussian (F32.pos 0) (F32.pos 0x3F000000),
   sample_gaussian (F32.pos 0) (F32.pos 0x3F19999A),
   sample_gaussian (F32.pos 0) (F32.pos 0x3F333333),
   sample_gaussian (F32.pos 0) (F32.pos 0x3F4CCCCD),
   sample_gaussian (F32.pos 0) (F32.pos 0x3F666666),
   sample_gaussian (F32.pos 0) (F32.pos 0x3F800000)]

/-- The four records `main` assembles from the scene `nan_rows`: logits
`3.0f, NaN, 1.0f, 2.0f` with their visibilities `0x3F73DBE6` (about 0.95), NaN,
`0x3F3B26A8` (about 0.73) and `0x3F617BEA` (about 0.88). -/
def nan_points : List (Gaussian F32) :=
  [sample_gaussian (F32.pos 0x40400000) (F32.pos 0x3F73DBE6),
   sample_gaussian F32.nan (F32.neg F32.nan),
   sample_gaussian (F32.pos 0x3F800000) (F32.pos 0x3F3B26A8),
   sample_gaussian (F32.pos 0x40000000) (F32.pos 0x3F617BEA)]

/-- Sample scene of two rows: attribute `x` holds `1.0f, 2.0f`, the logits are
`0.0f, 3.0f`, the other scalar attributes hold `5.0f, 6.0f` and every `f_rest` array
holds `7.0f, 8.0f`. -/
def two_rows : Columns F32 :=
  { x := [F32.pos 0x3F800000, F32.pos 0x40000000],
    y := [F32.pos 0x40A00000, F32.pos 0x40C00000],
    z := [F32.pos 0x40A00000, F32.pos 0x40C00000],
    nxx := [F32.pos 0x40A00000, F32.pos 0x40C00000],
    ny := [F32.pos 0x40A00000, F32.pos 0x40C00000],
    nz := [F32.pos 0x40A00000, F32.pos 0x40C00000],
    f_dc_0 := [F32.pos 0x40A00000, F32.pos 0x40C00000],
    f_dc_1 := [F32.pos 0x40A00000, F32.pos 0x40C00000],
    f_dc_2 := [F32.pos 0x40A00000, F32.pos 0x40C00000],
    opacity := [F32.pos 0, F32.pos 0x40400000],
    scale_0 := [F32.pos 0x40A00000, F32.pos 0x40C00000],
    scale_1 := [F32.pos 0x40A00000, F32.pos 0x40C00000],
    scale_2 := [F32.pos 0x40A00000, F32.pos 0x40C00000],
    rot_0 := [F32.pos 0x40A00000, F32.pos 0x40C00000],
    rot_1 := [F32.pos 0x40A00000, F32.pos 0x40C00000],
    rot_2 := [F32.pos 0x40A00000, F32.pos 0x40C00000],
    rot_3 := [F32.pos 0x40A00000, F32.pos 0x40C00000],
    f_rest_all := List.replicate 45 [F32.pos 0x40E00000, F32.pos 0x41000000] }

/-- The sample scene `two_rows` with a third entry, `9.0f`, in `y` only. -/
def longer_y : Columns F32 :=
  { two_rows with y := [F32.pos 0x40A00000, F32.pos 0x40C00000, F32.pos 0x41100000] }

/-- A scene of `n` equal rows, every attribute `0.0f`. -/
def equal_rows (n : Nat) : Columns F32 :=
  { x := List.replicate n (F32.pos 0), y := List.replicate n (F32.pos 0),
    z := List.replicate n (F32.pos 0),
    nxx := List.replicate n (F32.pos 0), ny := List.replicate n (F32.pos 0),
    nz := List.replicate n (F32.pos 0),
    f_dc_0 := List.replicate n (F32.pos 0), f_dc_1 := List.replicate n (F32.pos 0),
    f_dc_2 := List.replicate n (F32.pos 0), opacity := List.replicate n (F32.pos 0),
    scale_0 := List.replicate n (F32.pos 0), scale_1 := List.replicate n (F32.pos 0),
    scale_2 := List.replicate n (F32.pos 0),
    rot_0 := List.replicate n (F32.pos 0), rot_1 := List.replicate n (F32.pos 0),
    rot_2 := List.replicate n (F32.pos 0), rot_3 := List.replicate n (F32.pos 0),
    f_rest_all := List.replicate 45 (List.replicate n (F32.pos 0)) }

/-- A scene of four rows with the opacity logits `3.0f, NaN, 1.0f, 2.0f`, every other
attribute `0.0f`. -/
def nan_rows : Columns F32 :=
  { equal_rows 4 with
    opacity := [F32.pos 0x40400000, F32.nan, F32.pos 0x3F800000, F32.pos 0x40000000] }

/-- A scene of two rows with the opacity logits `17.0f` and `20.0f`, every other
attribute `0.0f`. -/
def saturated_rows_17_20 : Columns F32 :=
  { equal_rows 2 with opacity := [F32.pos 0x41880000, F32.pos 0x41A00000] }

/-- A scene of two rows with the opacity logits `20.0f` and `17.0f`, every other
attribute `0.0f`. -/
def saturated_rows_20_17 : Columns F32 :=
  { equal_rows 2 with opacity := [F32.pos 0x41A00000, F32.pos 0x41880000] }

/-- Two records with the logits `3.0f` and `0.0f` and the visibilities that `main`
computes for them, `0x3F73DBE6` and `0.5f`. -/
def sigmoid_points : List (Gaussian F32) :=
  [sample_gaussian (F32.pos 0x40400000) (F32.pos 0x3F73DBE6),
   sample_gaussian (F32.pos 0) (F32.pos 0x3F000000)]

/-! ## Length conditions and total readings -/

/-- Every attribute array has exactly `N` entries, and `f_rest_all` holds 45 arrays. -/
def Columns.HasLength {F : Type} (a : Columns F) (N : Nat) : Prop :=
  a.x.length = N ∧ a.y.length = N ∧ a.z.length = N ∧ a.nxx.length = N ∧ a.ny.length = N ∧
  a.nz.length = N ∧ a.f_dc_0.length = N ∧ a.f_dc_1.length = N ∧ a.f_dc_2.length = N ∧
  a.opacity.length = N ∧ a.scale_0.length = N ∧ a.scale_1.length = N ∧ a.scale_2.length = N ∧
  a.rot_0.length = N ∧ a.rot_1.length = N ∧ a.rot_2.length = N ∧ a.rot_3.length = N ∧
  a.f_rest_all.length = 45 ∧ ∀ col ∈ a.f_rest_all, col.length = N

instance {F : Type} (a : Columns F) (N : Nat) : Decidable (a.HasLength N) := by
  unfold Columns.HasLength
  infer_instance

/-- Every attribute array has at least `N` entries, and `f_rest_all` holds at least 45
arrays of which the first 45 have at least `N` entries: every read of the rows below `N`
is inside its vector. -/
def Columns.Covers {F : Type} (a : Columns F) (N : Nat) : Prop :=
  N ≤ a.x.length ∧ N ≤ a.y.length ∧ N ≤ a.z.length ∧ N ≤ a.nxx.length ∧ N ≤ a.ny.length ∧
  N ≤ a.nz.length ∧ N ≤ a.f_dc_0.length ∧ N ≤ a.f_dc_1.length ∧ N ≤ a.f_dc_2.length ∧
  N ≤ a.opacity.length ∧ N ≤ a.scale_0.length ∧ N ≤ a.scale_1.length ∧ N ≤ a.scale_2.length ∧
  N ≤ a.rot_0.length ∧ N ≤ a.rot_1.length ∧ N ≤ a.rot_2.length ∧ N ≤ a.rot_3.length ∧
  45 ≤ a.f_rest_all.length ∧ ∀ col ∈ a.f_rest_all.take 45, N ≤ col.length

instance {F : Type} (a : Columns F) (N : Nat) : Decidable (a.Covers N) := by
  unfold Columns.Covers
  infer_instance

/-- Row `i` of the arrays read as a record, with `0.0f` where a vector has no entry `i`
(used only for rows that exist). -/
def Columns.row {F : Type} [FloatOps F] (a : Columns F) (i : Nat) : Gaussian F :=
  { x := a.x.getD i FloatOps.zero,
    y := a.y.getD i FloatOps.zero,
    z := a.z.getD i FloatOps.zero,
    nxx := a.nxx.getD i FloatOps.zero,
    ny := a.ny.getD i FloatOps.zero,
    nz := a.nz.getD i FloatOps.zero,
    f_dc_0 := a.f_dc_0.getD i FloatOps.zero,
    f_dc_1 := a.f_dc_1.getD i FloatOps.zero,
    f_dc_2 := a.f_dc_2.getD i FloatOps.zero,
    f_rest := (List.range 45).map (fun j => (a.f_rest_all.getD j []).getD i FloatOps.zero),
    opacity_logit := a.opacity.getD i FloatOps.zero,
    scale_0 := a.scale_0.getD i FloatOps.zero,
    scale_1 := a.scale_1.getD i FloatOps.zero,
    scale_2 := a.scale_2.getD i FloatOps.zero,
    rot_0 := a.rot_0.getD i FloatOps.zero,
    rot_1 := a.rot_1.getD i FloatOps.zero,
    rot_2 := a.rot_2.getD i FloatOps.zero,
    rot_3 := a.rot_3.getD i FloatOps.zero,
    actual_opacity := sigmoid (a.opacity.getD i FloatOps.zero) }

/-- The arrays of a record list: one array per attribute, in list order. -/
def Columns.ofGaussians {F : Type} [FloatOps F] (l : List (Gaussian F)) : Columns F :=
  { x := l.map (fun g => g.x),
    y := l.map (fun g => g.y),
    z := l.map (fun g => g.z),
    nxx := l.map (fun g => g.nxx),
    ny := l.map (fun g => g.ny),
    nz := l.map (fun g => g.nz),
    f_dc_0 := l.map (fun g => g.f_dc_0),
    f_dc_1 := l.map (fun g => g.f_dc_1),
    f_dc_2 := l.map (fun g => g.f_dc_2),
    opacity := l.map (fun g => g.opacity_logit),
    scale_0 := l.map (fun g => g.scale_0),
    scale_1 := l.map (fun g => g.scale_1),
    scale_2 := l.map (fun g => g.scale_2),
    rot_0 := l.map (fun g => g.rot_0),
    rot_1 := l.map (fun g => g.rot_1),
    rot_2 := l.map (fun g => g.rot_2),
    rot_3 := l.map (fun g => g.rot_3),
    f_rest_all := (List.range 45).map (fun j => l.map (fun g => g.f_rest.getD j FloatOps.zero)) }

/-- The file `write_pruned_ply` builds for `path` and `count` when the records it reads
are `kept`: the 62 named arrays in the order of the `addProperty` calls. -/
def PlyFile.ofRecords {F : Type} [FloatOps F] (path : OutputPath) (count : Nat)
    (kept : List (Gaussian F)) : PlyFile F :=
  { path := path, count := count,
    properties :=
      [("x", kept.map (fun g => g.x)), ("y", kept.map (fun g => g.y)),
       ("z", kept.map (fun g => g.z)), ("nxx", kept.map (fun g => g.nxx)),
       ("ny", kept.map (fun g => g.ny)), ("nz", kept.map (fun g => g.nz)),
       ("f_dc_0", kept.map (fun g => g.f_dc_0)), ("f_dc_1", kept.map (fun g => g.f_dc_1)),
       ("f_dc_2", kept.map (fun g => g.f_dc_2))] ++
      (List.range 45).map (fun j => ("f_rest_" ++ toString j,
        kept.map (fun g => g.f_rest.getD j FloatOps.zero))) ++
      [("opacity", kept.map (fun g => g.opacity_logit)),
       ("scale_0", kept.map (fun g => g.scale_0)), ("scale_1", kept.map (fun g => g.scale_1)),
       ("scale_2", kept.map (fun g => g.scale_2)), ("rot_0", kept.map (fun g => g.rot_0)),
       ("rot_1", kept.map (fun g => g.rot_1)), ("rot_2", kept.map (fun g => g.rot_2)),
       ("rot_3", kept.map (fun g => g.rot_3))] }

/-! ## Arithmetic of the planner -/

theorem toSizeT_of_nonneg (p : Int) (hp0 : 0 ≤ p) (hp : p ≤ 100) :
    (toSizeT p : Int) = p := by
  unfold toSizeT SIZE_MOD
  have h : p % ((2 ^ 64 : Nat) : Int) = p := Int.emod_eq_of_lt hp0 (by push_cast; omega)
  rw [h]
  exact Int.toNat_of_nonneg hp0

theorem toSizeT_le (p : Int) (hp0 : 0 ≤ p) (hp : p ≤ 100) : toSizeT p ≤ 100 := by
  have h := toSizeT_of_nonneg p hp0 hp
  omega

theorem num_to_remove_le (N : Nat) (p : Int) (hp0 : 0 ≤ p) (hp : p ≤ 100) :
    num_to_remove N p ≤ N := by
  unfold num_to_remove
  have h1 : N * toSizeT p % SIZE_MOD ≤ N * toSizeT p := Nat.mod_le _ _
  have h2 : N * toSizeT p ≤ N * 100 := Nat.mul_le_mul_left N (toSizeT_le p hp0 hp)
  exact Nat.div_le_of_le_mul (by omega)

theorem num_to_keep_eq (N : Nat) (p : Int) (hN : N < 2 ^ 64) (hp0 : 0 ≤ p) (hp : p ≤ 100) :
    num_to_keep N p = N - num_to_remove N p := by
  have h := num_to_remove_le N p hp0 hp
  unfold num_to_keep SIZE_MOD
  omega

theorem start_add_count (N : Nat) (p : Int) (hN : N < 2 ^ 64) (hp0 : 0 ≤ p) (hp : p ≤ 100) :
    num_to_remove N p + num_to_keep N p = N := by
  have h := num_to_remove_le N p hp0 hp
  rw [num_to_keep_eq N p hN hp0 hp]
  omega

theorem percentages_bounds (p : Int) (hp : p ∈ percentages_to_prune) : 0 ≤ p ∧ p ≤ 100 := by
  simp only [percentages_to_prune, List.mem_cons, List.mem_singleton, List.not_mem_nil,
    or_false] at hp
  omega

theorem num_to_remove_exact (N : Nat) (p : Int) (hp0 : 0 ≤ p) (hp : p ≤ 100)
    (hlt : (N : Int) * p < 2 ^ 64) : (num_to_remove N p : Int) = (N : Int) * p / 100 := by
  have hs := toSizeT_of_nonneg p hp0 hp
  unfold num_to_remove SIZE_MOD
  have hlt2 : N * toSizeT p < 2 ^ 64 := by
    have : ((N * toSizeT p : Nat) : Int) < 2 ^ 64 := by push_cast; rw [hs]; exact hlt
    exact_mod_cast this
  rw [Nat.mod_eq_of_lt hlt2]
  push_cast
  rw [hs]

theorem max_size_lt (N : Nat) (hN : N ≤ MAX_SIZE) : N < 2 ^ 64 := by
  have h : MAX_SIZE = 88686269585142075 := by decide
  omega

theorem max_size_no_wrap (N : Nat) (p : Int) (hN : N ≤ MAX_SIZE) (hp : p ≤ 100) :
    (N : Int) * p < 2 ^ 64 := by
  have h : MAX_SIZE = 88686269585142075 := by decide
  have h1 : (N : Int) * p ≤ (N : Int) * 100 :=
    Int.mul_le_mul_of_nonneg_left hp (Int.ofNat_nonneg _)
  omega

/-- C1: for every point count `N` the program can hold (`N ≤ max_size()`, the counts
for which `reserve(original_count)` of line 116 does not throw) and every percentage
`0 ≤ P ≤ 100`, the planner computes `num_to_remove = floor(N * P / 100)` and
`num_to_keep = N - floor(N * P / 100)`, and `0 ≤ num_to_keep ≤ N`. -/
theorem planner_counts (N : Nat) (p : Int) (hN : N ≤ MAX_SIZE) (hp0 : 0 ≤ p) (hp : p ≤ 100) :
    (num_to_remove N p : Int) = (N : Int) * p / 100 ∧
    (num_to_keep N p : Int) = (N : Int) - (N : Int) * p / 100 ∧
    0 ≤ num_to_keep N p ∧ num_to_keep N p ≤ N := by
  have hN64 := max_size_lt N hN
  have hle := num_to_remove_le N p hp0 hp
  have hk := num_to_keep_eq N p hN64 hp0 hp
  have hr := num_to_remove_exact N p hp0 hp (max_size_no_wrap N p hN hp)
  refine ⟨hr, ?_, Nat.zero_le _, by omega⟩
  rw [hk, Nat.cast_sub hle, hr]

/-- Witness of C1: `N = 3`, `P = 50` removes 1 and keeps 2; `P = 100` keeps 0. -/
theorem planner_counts_witness :
    (3 ≤ MAX_SIZE ∧ (0 : Int) ≤ 50 ∧ (50 : Int) ≤ 100 ∧ (0 : Int) ≤ 100) ∧
    ((num_to_remove 3 50 : Int) = 1 ∧ (num_to_keep 3 50 : Int) = 2) ∧
    (num_to_keep 3 100 : Int) = 0 ∧ num_to_keep 3 50 ≤ 3 :=
  ⟨⟨by decide, by decide, by decide, by decide⟩,
   ⟨(planner_counts 3 50 (by decide) (by decide) (by decide)).1,
    (planner_counts 3 50 (by decide) (by decide) (by decide)).2.1⟩,
   (planner_counts 3 100 (by decide) (by decide) (by decide)).2.1,
   (planner_counts 3 50 (by decide) (by decide) (by decide)).2.2.2⟩

/-! ## Loops -/

theorem forRange_zero {σ : Type} (body : Nat → σ → Option σ) (s : σ) :
    forRange 0 body s = some s := rfl

theorem forRange_succ {σ : Type} (n : Nat) (body : Nat → σ → Option σ) (s : σ) :
    forRange (n + 1) body s = (forRange n body s).bind (body n) := by
  simp [forRange, List.range_succ, List.foldlM_append]

/-- A loop over `j < n` that overwrites entry `j` of a vector of size `n` with a value
computed from `j` and the old entry yields the vector of the new entries. -/
theorem forRange_update {α : Type} (n : Nat) (step : Nat → List α → Option (List α))
    (init : Nat → α) (h : Nat → α → α)
    (hstep : ∀ j, j < n → ∀ fr : List α, fr.length = n → ∀ old, fr[j]? = some old →
      step j fr = some (fr.set j (h j old))) :
    ∀ m, m ≤ n → forRange m step ((List.range n).map init) =
      some ((List.range n).map (fun j => if j < m then h j (init j) else init j)) := by
  intro m
  induction m with
  | zero => intro _; simp [forRange_zero]
  | succ m ih =>
    intro hm
    have hlt : m < n := by omega
    rw [forRange_succ, ih (by omega), Option.some_bind]
    rw [hstep m hlt _ (by simp) (init m) (by simp [List.getElem?_range hlt])]
    congr 1
    apply List.ext_getElem?
    intro k
    rw [List.getElem?_set]
    by_cases hk : k < n
    · by_cases hmk : m = k
      · subst hmk; simp [List.getElem?_range hk, hk]
      · simp [List.getElem?_range hk, hmk]
        by_cases h1 : k < m
        · simp [h1, Nat.lt_succ_of_lt h1]
        · have h2 : ¬ k < m + 1 := by omega
          simp [h1, h2]
    · have h1 : (List.range n)[k]? = none := by simp; omega
      by_cases hmk : m = k
      · omega
      · simp [hmk, h1]

theorem forRange_update_full {α : Type} (n : Nat) (step : Nat → List α → Option (List α))
    (init : Nat → α) (h : Nat → α → α)
    (hstep : ∀ j, j < n → ∀ fr : List α, fr.length = n → ∀ old, fr[j]? = some old →
      step j fr = some (fr.set j (h j old))) :
    forRange n step ((List.range n).map init) = some ((List.range n).map (fun j => h j (init j))) := by
  rw [forRange_update n step init h hstep n (Nat.le_refl n)]
  congr 1
  apply List.map_congr_left
  intro j hj
  simp [List.mem_range.mp hj]

/-- A loop that appends one computed element per iteration. -/
theorem forRange_push {α : Type} (n : Nat) (f : Nat → Option α) (r : Nat → α) (init : List α)
    (hf : ∀ i, i < n → f i = some (r i)) :
    forRange n (fun i acc => (f i).bind (fun g => some (acc ++ [g]))) init =
      some (init ++ (List.range n).map r) := by
  induction n with
  | zero => simp [forRange_zero]
  | succ n ih =>
    rw [forRange_succ, ih (fun i hi => hf i (by omega)), Option.some_bind,
      hf n (by omega), Option.some_bind, List.range_succ]
    simp

theorem getElem?_eq_some_getD {α : Type} (l : List α) (i : Nat) (d : α) (h : i < l.length) :
    l[i]? = some (l.getD i d) := by
  simp [List.getD_eq_getElem?_getD, List.getElem?_eq_getElem h]

theorem map_getD_range {α : Type} (l : List α) (d : α) :
    (List.range l.length).map (fun i => l.getD i d) = l := by
  apply List.ext_getElem?
  intro k
  by_cases hk : k < l.length
  · simp [List.getElem?_range hk, List.getElem?_eq_getElem hk, List.getD_eq_getElem?_getD]
  · have h1 : (List.range l.length)[k]? = none := by simp; omega
    have h2 : l[k]? = none := by simp; omega
    simp [h1, h2]

/-! ## The assembler -/

theorem HasLength.covers {F : Type} (a : Columns F) (N : Nat) (h : a.HasLength N) :
    a.Covers N := by
  obtain ⟨h_x, h_y, h_z, h_nxx, h_ny, h_nz, h_f_dc_0, h_f_dc_1, h_f_dc_2, h_opacity,
    h_scale_0, h_scale_1, h_scale_2, h_rot_0, h_rot_1, h_rot_2, h_rot_3, h45, hcol⟩ := h
  refine ⟨Nat.le_of_eq h_x.symm, Nat.le_of_eq h_y.symm, Nat.le_of_eq h_z.symm,
    Nat.le_of_eq h_nxx.symm, Nat.le_of_eq h_ny.symm, Nat.le_of_eq h_nz.symm,
    Nat.le_of_eq h_f_dc_0.symm, Nat.le_of_eq h_f_dc_1.symm, Nat.le_of_eq h_f_dc_2.symm,
    Nat.le_of_eq h_opacity.symm, Nat.le_of_eq h_scale_0.symm, Nat.le_of_eq h_scale_1.symm,
    Nat.le_of_eq h_scale_2.symm, Nat.le_of_eq h_rot_0.symm, Nat.le_of_eq h_rot_1.symm,
    Nat.le_of_eq h_rot_2.symm, Nat.le_of_eq h_rot_3.symm, Nat.le_of_eq h45.symm, ?_⟩
  intro col hcolmem
  exact Nat.le_of_eq (hcol col (List.mem_of_mem_take hcolmem)).symm

theorem assemble_f_rest_eq {F : Type} [FloatOps F] (f_rest_all : List (List F)) (i : Nat)
    (h : ∀ j, j < 45 → ∃ col, f_rest_all[j]? = some col ∧ i < col.length) :
    assemble_f_rest f_rest_all i =
      some ((List.range 45).map (fun j => (f_rest_all.getD j []).getD i FloatOps.zero)) := by
  unfold assemble_f_rest
  have hinit : List.replicate 45 (FloatOps.zero : F) =
      (List.range 45).map (fun _ => (FloatOps.zero : F)) := by
    simp [List.map_const']
  rw [hinit]
  apply forRange_update_full 45 _ (fun _ => (FloatOps.zero : F))
    (fun j _ => (f_rest_all.getD j []).getD i FloatOps.zero)
  intro j hj fr _ old _
  obtain ⟨col, hcol, hi⟩ := h j hj
  simp [hcol, List.getD_eq_getElem?_getD, List.getElem?_eq_getElem hi]

theorem assemble_one_eq {F : Type} [FloatOps F] (a : Columns F) (N : Nat) (hc : a.Covers N)
    (i : Nat) (hi : i < N) : assemble_one a i = some (a.row i) := by
  obtain ⟨h_x, h_y, h_z, h_nxx, h_ny, h_nz, h_f_dc_0, h_f_dc_1, h_f_dc_2, h_opacity,
    h_scale_0, h_scale_1, h_scale_2, h_rot_0, h_rot_1, h_rot_2, h_rot_3, h45, hrest⟩ := hc
  have hf := assemble_f_rest_eq a.f_rest_all i (fun j hj => by
    have hjl : j < a.f_rest_all.length := Nat.lt_of_lt_of_le hj h45
    have hmem : a.f_rest_all[j] ∈ a.f_rest_all.take 45 := by
      apply List.getElem?_mem (n := j)
      rw [List.getElem?_take_of_lt hj]
      exact List.getElem?_eq_getElem hjl
    exact ⟨a.f_rest_all[j], List.getElem?_eq_getElem hjl,
      Nat.lt_of_lt_of_le hi (hrest _ hmem)⟩)
  have e_x := getElem?_eq_some_getD a.x i FloatOps.zero (by omega)
  have e_y := getElem?_eq_some_getD a.y i FloatOps.zero (by omega)
  have e_z := getElem?_eq_some_getD a.z i FloatOps.zero (by omega)
  have e_nxx := getElem?_eq_some_getD a.nxx i FloatOps.zero (by omega)
  have e_ny := getElem?_eq_some_getD a.ny i FloatOps.zero (by omega)
  have e_nz := getElem?_eq_some_getD a.nz i FloatOps.zero (by omega)
  have e_f_dc_0 := getElem?_eq_some_getD a.f_dc_0 i FloatOps.zero (by omega)
  have e_f_dc_1 := getElem?_eq_some_getD a.f_dc_1 i FloatOps.zero (by omega)
  have e_f_dc_2 := getElem?_eq_some_getD a.f_dc_2 i FloatOps.zero (by omega)
  have e_opacity := getElem?_eq_some_getD a.opacity i FloatOps.zero (by omega)
  have e_scale_0 := getElem?_eq_some_getD a.scale_0 i FloatOps.zero (by omega)
  have e_scale_1 := getElem?_eq_some_getD a.scale_1 i FloatOps.zero (by omega)
  have e_scale_2 := getElem?_eq_some_getD a.scale_2 i FloatOps.zero (by omega)
  have e_rot_0 := getElem?_eq_some_getD a.rot_0 i FloatOps.zero (by omega)
  have e_rot_1 := getElem?_eq_some_getD a.rot_1 i FloatOps.zero (by omega)
  have e_rot_2 := getElem?_eq_some_getD a.rot_2 i FloatOps.zero (by omega)
  have e_rot_3 := getElem?_eq_some_getD a.rot_3 i FloatOps.zero (by omega)
  unfold assemble_one
  simp only [e_x, e_y, e_z, e_nxx, e_ny, e_nz, e_f_dc_0, e_f_dc_1, e_f_dc_2, e_opacity,
    e_scale_0, e_scale_1, e_scale_2, e_rot_0, e_rot_1, e_rot_2, e_rot_3, hf]
  rfl

theorem assemble_eq {F : Type} [FloatOps F] (a : Columns F) (hc : a.Covers a.x.length) :
    assemble a = some ((List.range a.x.length).map a.row) := by
  unfold assemble
  have h := forRange_push a.x.length (assemble_one a) a.row []
    (fun i hi => assemble_one_eq a a.x.length hc i hi)
  simpa using h

/-! ## The output assembly -/

theorem push_f_rest_eq {F : Type} [FloatOps F] (g : Gaussian F) (colf : Nat → List F)
    (hg : 45 ≤ g.f_rest.length) :
    push_f_rest g ((List.range 45).map colf) =
      some ((List.range 45).map (fun j => colf j ++ [g.f_rest.getD j FloatOps.zero])) := by
  unfold push_f_rest
  apply forRange_update_full 45 _ colf (fun j col => col ++ [g.f_rest.getD j FloatOps.zero])
  intro j hj fr _ old hold
  have hv := getElem?_eq_some_getD g.f_rest j FloatOps.zero (by omega)
  simp only [hv, hold, Option.bind_eq_bind, Option.some_bind, Option.pure_def]

theorem init_eq_ofGaussians_nil {F : Type} [FloatOps F] :
    Columns.init F = Columns.ofGaussians ([] : List (Gaussian F)) := by
  simp [Columns.init, Columns.ofGaussians, List.map_const']

theorem write_loop_body_eq {F : Type} [FloatOps F] (gaussians : List (Gaussian F))
    (start_index i : Nat) (l : List (Gaussian F)) (g : Gaussian F)
    (hg : gaussians[(start_index + i) % SIZE_MOD]? = some g) (h45 : 45 ≤ g.f_rest.length) :
    write_loop_body gaussians start_index i (Columns.ofGaussians l) =
      some (Columns.ofGaussians (l ++ [g])) := by
  unfold write_loop_body
  rw [hg]
  have hp := push_f_rest_eq g (fun j => l.map (fun g => g.f_rest.getD j FloatOps.zero)) h45
  simp only [Columns.ofGaussians, Option.bind_eq_bind, Option.some_bind, hp, Option.pure_def,
    List.map_append, List.map_cons, List.map_nil]

theorem write_columns_eq {F : Type} [FloatOps F] (gaussians : List (Gaussian F))
    (start_index count : Nat) (hin : start_index + count ≤ gaussians.length)
    (hN : gaussians.length < 2 ^ 64) (h45 : ∀ g ∈ gaussians, 45 ≤ g.f_rest.length) :
    write_columns gaussians start_index count =
      some (Columns.ofGaussians ((gaussians.drop start_index).take count)) := by
  unfold write_columns
  have key : ∀ m, m ≤ count →
      forRange m (write_loop_body gaussians start_index) (Columns.init F) =
        some (Columns.ofGaussians ((gaussians.drop start_index).take m)) := by
    intro m
    induction m with
    | zero => intro _; simp [forRange_zero, init_eq_ofGaussians_nil]
    | succ m ih =>
      intro hm
      have hlt : start_index + m < gaussians.length := by omega
      have hmod : (start_index + m) % SIZE_MOD = start_index + m := by
        apply Nat.mod_eq_of_lt
        unfold SIZE_MOD
        omega
      have hg : gaussians[(start_index + m) % SIZE_MOD]? = some gaussians[start_index + m] := by
        rw [hmod]; exact List.getElem?_eq_getElem hlt
      rw [forRange_succ, ih (by omega), Option.some_bind,
        write_loop_body_eq gaussians start_index m _ _ hg (h45 _ (List.getElem_mem hlt))]
      congr 2
      rw [List.take_succ, List.getElem?_drop, List.getElem?_eq_getElem hlt]
      rfl
  exact key count (Nat.le_refl count)

theorem add_f_rest_properties_eq {F : Type} (colf : Nat → List F)
    (properties : List (String × List F)) :
    add_f_rest_properties ((List.range 45).map colf) properties =
      some (properties ++ (List.range 45).map (fun j => ("f_rest_" ++ toString j, colf j))) := by
  unfold add_f_rest_properties
  have h := forRange_push 45
    (fun i => (((List.range 45).map colf)[i]?).map (fun col => ("f_rest_" ++ toString i, col)))
    (fun j => ("f_rest_" ++ toString j, colf j)) properties
    (fun i hi => by simp [List.getElem?_range hi])
  rw [← h]
  congr 1
  funext i acc
  show (((List.range 45).map colf)[i]?).bind _ = ((((List.range 45).map colf)[i]?).map _).bind _
  generalize ((List.range 45).map colf)[i]? = o
  cases o <;> rfl

theorem write_pruned_ply_eq {F : Type} [FloatOps F] (path : OutputPath)
    (gaussians : List (Gaussian F)) (start_index count : Nat)
    (hin : start_index + count ≤ gaussians.length) (hN : gaussians.length < 2 ^ 64)
    (h45 : ∀ g ∈ gaussians, 45 ≤ g.f_rest.length) :
    write_pruned_ply path gaussians start_index count =
      some { path := path, count := count,
             properties :=
               [("x", ((gaussians.drop start_index).take count).map (fun g => g.x)),
                ("y", ((gaussians.drop start_index).take count).map (fun g => g.y)),
                ("z", ((gaussians.drop start_index).take count).map (fun g => g.z)),
                ("nxx", ((gaussians.drop start_index).take count).map (fun g => g.nxx)),
                ("ny", ((gaussians.drop start_index).take count).map (fun g => g.ny)),
                ("nz", ((gaussians.drop start_index).take count).map (fun g => g.nz)),
                ("f_dc_0", ((gaussians.drop start_index).take count).map (fun g => g.f_dc_0)),
                ("f_dc_1", ((gaussians.drop start_index).take count).map (fun g => g.f_dc_1)),
                ("f_dc_2", ((gaussians.drop start_index).take count).map (fun g => g.f_dc_2))] ++
               (List.range 45).map (fun j => ("f_rest_" ++ toString j,
                 ((gaussians.drop start_index).take count).map
                   (fun g => g.f_rest.getD j FloatOps.zero))) ++
               [("opacity",
                  ((gaussians.drop start_index).take count).map (fun g => g.opacity_logit)),
                ("scale_0", ((gaussians.drop start_index).take count).map (fun g => g.scale_0)),
                ("scale_1", ((gaussians.drop start_index).take count).map (fun g => g.scale_1)),
                ("scale_2", ((gaussians.drop start_index).take count).map (fun g => g.scale_2)),
                ("rot_0", ((gaussians.drop start_index).take count).map (fun g => g.rot_0)),
                ("rot_1", ((gaussians.drop start_index).take count).map (fun g => g.rot_1)),
                ("rot_2", ((gaussians.drop start_index).take count).map (fun g => g.rot_2)),
                ("rot_3", ((gaussians.drop start_index).take count).map (fun g => g.rot_3))] } := by
  unfold write_pruned_ply
  rw [write_columns_eq gaussians start_index count hin hN h45]
  simp only [Columns.ofGaussians, Option.bind_eq_bind, Option.some_bind,
    add_f_rest_properties_eq, Option.pure_def]

/-! ## The ranking step -/

theorem linear_insert_perm {α : Type} (comp : α → α → Bool) (val : α) (l : List α) :
    (linear_insert comp val l).Perm (val :: l) := by
  induction l with
  | nil => exact List.Perm.refl _
  | cons next rest ih =>
    unfold linear_insert
    split
    · exact (ih.cons next).trans (List.Perm.swap val next rest)
    · exact List.Perm.refl _

theorem insertion_step_perm {α : Type} (comp : α → α → Bool) (sorted : List α) (val : α) :
    (insertion_step comp sorted val).Perm (val :: sorted) := by
  cases sorted with
  | nil => exact List.Perm.refl _
  | cons first rest =>
    simp only [insertion_step]
    split
    · exact List.Perm.refl _
    · exact (List.reverse_perm _).trans
        ((linear_insert_perm comp val _).trans ((List.reverse_perm _).cons val))

theorem std_sort_foldl_perm {α : Type} (comp : α → α → Bool) (l acc : List α) :
    (l.foldl (insertion_step comp) acc).Perm (l ++ acc) := by
  induction l generalizing acc with
  | nil => exact List.Perm.refl _
  | cons x xs ih =>
    rw [List.foldl_cons]
    refine (ih _).trans ?_
    refine (List.Perm.append_left xs (insertion_step_perm comp acc x)).trans ?_
    exact List.perm_middle

theorem std_sort_perm {α : Type} (comp : α → α → Bool) (l : List α) :
    (std_sort comp l).Perm l := by
  have h := std_sort_foldl_perm comp l []
  simpa [std_sort] using h

theorem rank_perm {F : Type} [FloatOps F] (l : List (Gaussian F)) : (rank l).Perm l :=
  std_sort_perm _ l

theorem rank_length {F : Type} [FloatOps F] (l : List (Gaussian F)) :
    (rank l).length = l.length := (rank_perm l).length_eq

theorem linear_insert_sorted {α : Type} (comp : α → α → Bool) (key : α → Int) (val : α)
    (l : List α) (hcomp : ∀ y ∈ l, (comp val y = true ↔ key val < key y))
    (hl : l.Pairwise (fun a b => key b ≤ key a)) :
    (linear_insert comp val l).Pairwise (fun a b => key b ≤ key a) := by
  induction l with
  | nil => simp [linear_insert]
  | cons next rest ih =>
    have hnext := (List.pairwise_cons.mp hl).1
    have hrest := (List.pairwise_cons.mp hl).2
    have hc := hcomp next (List.mem_cons_self next rest)
    unfold linear_insert
    split
    · rename_i hlt
      have hlt' : key val < key next := hc.mp hlt
      refine List.pairwise_cons.mpr ⟨?_, ih (fun y hy => hcomp y (List.mem_cons_of_mem next hy)) hrest⟩
      intro z hz
      have hz2 : z ∈ val :: rest := (linear_insert_perm comp val rest).mem_iff.mp hz
      rcases List.mem_cons.mp hz2 with hzv | hzr
      · rw [hzv]; exact Int.le_of_lt hlt'
      · exact hnext z hzr
    · rename_i hnlt
      have hge : key next ≤ key val := by
        have hn : ¬ key val < key next := fun h => hnlt (hc.mpr h)
        exact Int.not_lt.mp hn
      refine List.pairwise_cons.mpr ⟨?_, hl⟩
      intro z hz
      rcases List.mem_cons.mp hz with hzn | hzr
      · rw [hzn]; exact hge
      · exact Int.le_trans (hnext z hzr) hge

theorem insertion_step_sorted {α : Type} (comp : α → α → Bool) (key : α → Int)
    (sorted : List α) (val : α)
    (hcomp : ∀ y ∈ sorted, (comp val y = true ↔ key val < key y))
    (hs : sorted.Pairwise (fun a b => key a ≤ key b)) :
    (insertion_step comp sorted val).Pairwise (fun a b => key a ≤ key b) := by
  cases sorted with
  | nil => simp [insertion_step]
  | cons first rest =>
    simp only [insertion_step]
    split
    · rename_i hlt
      have hlt' : key val < key first := (hcomp first (List.mem_cons_self first rest)).mp hlt
      refine List.pairwise_cons.mpr ⟨?_, hs⟩
      intro z hz
      rcases List.mem_cons.mp hz with hzf | hzr
      · rw [hzf]; exact Int.le_of_lt hlt'
      · exact Int.le_trans (Int.le_of_lt hlt') ((List.pairwise_cons.mp hs).1 z hzr)
    · rw [List.pairwise_reverse]
      apply linear_insert_sorted comp key val
      · intro y hy
        exact hcomp y (List.mem_reverse.mp hy)
      · rw [List.pairwise_reverse]
        exact hs

theorem std_sort_sorted {α : Type} (comp : α → α → Bool) (key : α → Int) (l : List α)
    (hcomp : ∀ a ∈ l, ∀ b ∈ l, (comp a b = true ↔ key a < key b)) :
    (std_sort comp l).Pairwise (fun a b => key a ≤ key b) := by
  have main : ∀ (l acc : List α),
      (∀ a ∈ l ++ acc, ∀ b ∈ l ++ acc, (comp a b = true ↔ key a < key b)) →
      acc.Pairwise (fun a b => key a ≤ key b) →
      (l.foldl (insertion_step comp) acc).Pairwise (fun a b => key a ≤ key b) := by
    intro l
    induction l with
    | nil => intro acc _ h; exact h
    | cons x xs ih =>
      intro acc hc hacc
      rw [List.foldl_cons]
      apply ih
      · intro a ha b hb
        have hmem : ∀ c, c ∈ xs ++ insertion_step comp acc x → c ∈ (x :: xs) ++ acc := by
          intro c hcm
          rcases List.mem_append.mp hcm with h1 | h1
          · exact List.mem_append.mpr (Or.inl (List.mem_cons_of_mem x h1))
          · have h2 := (insertion_step_perm comp acc x).mem_iff.mp h1
            rcases List.mem_cons.mp h2 with h3 | h3
            · rw [h3]; exact List.mem_append.mpr (Or.inl (List.mem_cons_self x xs))
            · exact List.mem_append.mpr (Or.inr h3)
        exact hc a (hmem a ha) b (hmem b hb)
      · apply insertion_step_sorted comp key acc x _ hacc
        intro y hy
        exact hc x (List.mem_append.mpr (Or.inl (List.mem_cons_self x xs))) y
          (List.mem_append.mpr (Or.inr hy))
  exact main l [] (by simpa using hcomp) List.Pairwise.nil

theorem F32.lt_iff_key (a b : F32) (ha : a.isNaN = false) (hb : b.isNaN = false) :
    (F32.lt a b = true ↔ a.key < b.key) := by
  simp [F32.lt, ha, hb]

theorem F32.le_iff_key (a b : F32) (ha : a.isNaN = false) (hb : b.isNaN = false) :
    (F32.le a b = true ↔ a.key ≤ b.key) := by
  simp [F32.le, ha, hb]

theorem rank_sorted (l : List (Gaussian F32))
    (hnan : ∀ g ∈ l, g.actual_opacity.isNaN = false) :
    (rank l).Pairwise (fun a b => F32.le a.actual_opacity b.actual_opacity = true) := by
  have h := std_sort_sorted
    (fun (a b : Gaussian F32) => FloatOps.lt a.actual_opacity b.actual_opacity)
    (fun g => g.actual_opacity.key) l
    (fun a ha b hb => F32.lt_iff_key _ _ (hnan a ha) (hnan b hb))
  have hmem : ∀ g ∈ rank l, g.actual_opacity.isNaN = false :=
    fun g hg => hnan g ((rank_perm l).mem_iff.mp hg)
  have h2 : (rank l).Pairwise (fun a b => a.actual_opacity.key ≤ b.actual_opacity.key) := h
  exact h2.imp_of_mem (fun {a b} ha hb hab =>
    (F32.le_iff_key _ _ (hmem a ha) (hmem b hb)).mpr hab)

/-! ## The kept slice -/

theorem slice_map_getElem? {α β : Type} (l : List α) (f : α → β) (r keep k : Nat)
    (hk : k < keep) (h : r + k < l.length) :
    (((l.drop r).take keep).map f)[k]? = some (f l[r + k]) := by
  rw [List.getElem?_map, List.getElem?_take_of_lt hk, List.getElem?_drop,
    List.getElem?_eq_getElem h]
  rfl

theorem kept_slice_eq_drop {F : Type} (gaussians : List (Gaussian F)) (p : Int)
    (hN : gaussians.length < 2 ^ 64) (hp0 : 0 ≤ p) (hp : p ≤ 100) :
    kept_slice gaussians (num_to_remove gaussians.length p) (num_to_keep gaussians.length p) =
      gaussians.drop (num_to_remove gaussians.length p) := by
  unfold kept_slice
  apply List.take_of_length_le
  rw [List.length_drop, num_to_keep_eq _ p hN hp0 hp]

/-- C2: for every ranked sequence (of `size_t` length, records carrying their 45
`f_rest` entries) and every percentage processed by `main`, the pass of the loop of
`main` writes a file of `N - num_to_remove` points whose arrays are those built by
`write_pruned_ply` from `start_index = num_to_remove`, and entry `k` of every array is
the corresponding attribute of ranked element `num_to_remove + k`. -/
theorem kept_records_handed_over {F : Type} [FloatOps F] (base_name output_dir : String)
    (ranked : List (Gaussian F)) (p : Int)
    (hN : ranked.length < 2 ^ 64) (h45 : ∀ g ∈ ranked, 45 ≤ g.f_rest.length)
    (hp : p ∈ percentages_to_prune) :
    ∃ out c, prune_one base_name output_dir ranked ranked.length p = some out ∧
      write_columns ranked (num_to_remove ranked.length p) (num_to_keep ranked.length p)
        = some c ∧
      out.count = ranked.length - num_to_remove ranked.length p ∧
      out.properties.map Prod.snd =
        [c.x, c.y, c.z, c.nxx, c.ny, c.nz, c.f_dc_0, c.f_dc_1, c.f_dc_2] ++ c.f_rest_all ++
        [c.opacity, c.scale_0, c.scale_1, c.scale_2, c.rot_0, c.rot_1, c.rot_2, c.rot_3] ∧
      ∀ k, k < ranked.length - num_to_remove ranked.length p →
        ∃ g, ranked[num_to_remove ranked.length p + k]? = some g ∧
        c.x[k]? = some g.x ∧
        c.y[k]? = some g.y ∧
        c.z[k]? = some g.z ∧
        c.nxx[k]? = some g.nxx ∧
        c.ny[k]? = some g.ny ∧
        c.nz[k]? = some g.nz ∧
        c.f_dc_0[k]? = some g.f_dc_0 ∧
        c.f_dc_1[k]? = some g.f_dc_1 ∧
        c.f_dc_2[k]? = some g.f_dc_2 ∧
        c.opacity[k]? = some g.opacity_logit ∧
        c.scale_0[k]? = some g.scale_0 ∧
        c.scale_1[k]? = some g.scale_1 ∧
        c.scale_2[k]? = some g.scale_2 ∧
        c.rot_0[k]? = some g.rot_0 ∧
        c.rot_1[k]? = some g.rot_1 ∧
        c.rot_2[k]? = some g.rot_2 ∧
        c.rot_3[k]? = some g.rot_3 ∧
        ∀ j, j < 45 → ∃ col, c.f_rest_all[j]? = some col ∧ col[k]? = g.f_rest[j]? := by
  obtain ⟨hp0, hp100⟩ := percentages_bounds p hp
  have hsum := start_add_count ranked.length p hN hp0 hp100
  have hkeep := num_to_keep_eq ranked.length p hN hp0 hp100
  have hw := write_pruned_ply_eq (F := F)
    { output_dir := output_dir, output_filename := output_filename base_name p }
    ranked (num_to_remove ranked.length p) (num_to_keep ranked.length p)
    (Nat.le_of_eq hsum) hN h45
  have hc := write_columns_eq ranked (num_to_remove ranked.length p)
    (num_to_keep ranked.length p) (Nat.le_of_eq hsum) hN h45
  refine ⟨_, _, hw, hc, hkeep, ?_, ?_⟩
  · simp [Columns.ofGaussians, Function.comp_def]
  · intro k hk
    have hk2 : k < num_to_keep ranked.length p := by omega
    have hin : num_to_remove ranked.length p + k < ranked.length := by omega
    refine ⟨ranked[num_to_remove ranked.length p + k], List.getElem?_eq_getElem hin,
      slice_map_getElem? ranked _ _ _ k hk2 hin,
      slice_map_getElem? ranked _ _ _ k hk2 hin,
      slice_map_getElem? ranked _ _ _ k hk2 hin,
      slice_map_getElem? ranked _ _ _ k hk2 hin,
      slice_map_getElem? ranked _ _ _ k hk2 hin,
      slice_map_getElem? ranked _ _ _ k hk2 hin,
      slice_map_getElem? ranked _ _ _ k hk2 hin,
      slice_map_getElem? ranked _ _ _ k hk2 hin,
      slice_map_getElem? ranked _ _ _ k hk2 hin,
      slice_map_getElem? ranked _ _ _ k hk2 hin,
      slice_map_getElem? ranked _ _ _ k hk2 hin,
      slice_map_getElem? ranked _ _ _ k hk2 hin,
      slice_map_getElem? ranked _ _ _ k hk2 hin,
      slice_map_getElem? ranked _ _ _ k hk2 hin,
      slice_map_getElem? ranked _ _ _ k hk2 hin,
      slice_map_getElem? ranked _ _ _ k hk2 hin,
      slice_map_getElem? ranked _ _ _ k hk2 hin, ?_⟩
    intro j hj
    refine ⟨((ranked.drop (num_to_remove ranked.length p)).take
      (num_to_keep ranked.length p)).map (fun g => g.f_rest.getD j FloatOps.zero), ?_, ?_⟩
    · simp [Columns.ofGaussians, List.getElem?_range hj]
    · rw [slice_map_getElem? ranked _ _ _ k hk2 hin]
      exact (getElem?_eq_some_getD _ j FloatOps.zero
        (Nat.lt_of_lt_of_le hj (h45 _ (List.getElem_mem hin)))).symm

/-- Witness of C2: three records and `P = 50` give a file of 2 points. -/
theorem kept_records_handed_over_witness :
    (three_points.length < 2 ^ 64 ∧ (50 : Int) ∈ percentages_to_prune) ∧
    ∃ out, prune_one "scene" "out" three_points three_points.length 50 = some out ∧
      out.count = 2 := by
  refine ⟨⟨by decide, by decide⟩, ?_⟩
  obtain ⟨out, _, h1, _, h3, _⟩ := kept_records_handed_over "scene" "out" three_points 50
    (by decide) (by decide) (by decide)
  exact ⟨out, h1, h3⟩

/-- C3, as stated, fails on a NaN visibility: the scene `nan_rows` with the logits
`3.0f, NaN, 1.0f, 2.0f` is assembled into `nan_points` and ranked in the logit order
`1.0f, 3.0f, NaN, 2.0f`; for `P = 50` the removed records have the logits `1.0f, 3.0f`
and the kept slice `NaN, 2.0f`, so a kept record (logit `2.0f`, visibility about 0.88)
lies below a removed one (logit `3.0f`, visibility about 0.95) and the kept slice is not
ascending. -/
theorem nan_prune_counterexample :
    assemble nan_rows = some nan_points ∧
    nan_points.length < 2 ^ 64 ∧ (50 : Int) ∈ percentages_to_prune ∧
    ((rank nan_points).take (num_to_remove nan_points.length 50)).map
        (fun g => (g.opacity_logit, g.actual_opacity)) =
      [(F32.pos 0x3F800000, F32.pos 0x3F3B26A8), (F32.pos 0x40400000, F32.pos 0x3F73DBE6)] ∧
    (kept_slice (rank nan_points) (num_to_remove nan_points.length 50)
        (num_to_keep nan_points.length 50)).map
        (fun g => (g.opacity_logit, g.actual_opacity)) =
      [(F32.nan, F32.neg F32.nan), (F32.pos 0x40000000, F32.pos 0x3F617BEA)] ∧
    F32.lt (F32.pos 0x3F617BEA) (F32.pos 0x3F73DBE6) = true ∧
    ¬ (∀ a ∈ (rank nan_points).take (num_to_remove nan_points.length 50),
        ∀ b ∈ kept_slice (rank nan_points) (num_to_remove nan_points.length 50)
            (num_to_keep nan_points.length 50),
          F32.le a.actual_opacity b.actual_opacity = true) ∧
    ¬ (kept_slice (rank nan_points) (num_to_remove nan_points.length 50)
        (num_to_keep nan_points.length 50)).Pairwise
          (fun a b => F32.le a.actual_opacity b.actual_opacity = true) := by
  decide

/-- C3 (amended): for every record sequence none of whose visibilities is NaN and every
percentage processed by `main`, after ranking every record of the kept slice has a
visibility at least that of every removed record, the kept slice is in ascending
visibility order, and the removed records followed by the kept slice are the whole
ranked sequence. -/
theorem prune_removes_lowest (all_gaussians : List (Gaussian F32)) (p : Int)
    (hnan : ∀ g ∈ all_gaussians, g.actual_opacity.isNaN = false)
    (hN : all_gaussians.length < 2 ^ 64) (hp : p ∈ percentages_to_prune) :
    (∀ a ∈ (rank all_gaussians).take (num_to_remove all_gaussians.length p),
      ∀ b ∈ kept_slice (rank all_gaussians) (num_to_remove all_gaussians.length p)
          (num_to_keep all_gaussians.length p),
        F32.le a.actual_opacity b.actual_opacity = true) ∧
    (kept_slice (rank all_gaussians) (num_to_remove all_gaussians.length p)
      (num_to_keep all_gaussians.length p)).Pairwise
        (fun a b => F32.le a.actual_opacity b.actual_opacity = true) ∧
    (rank all_gaussians).take (num_to_remove all_gaussians.length p) ++
      kept_slice (rank all_gaussians) (num_to_remove all_gaussians.length p)
        (num_to_keep all_gaussians.length p) = rank all_gaussians := by
  obtain ⟨hp0, hp100⟩ := percentages_bounds p hp
  have hlen := rank_length all_gaussians
  have hk := kept_slice_eq_drop (rank all_gaussians) p (by rw [hlen]; exact hN) hp0 hp100
  rw [hlen] at hk
  rw [hk]
  have hs := rank_sorted all_gaussians hnan
  rw [← List.take_append_drop (num_to_remove all_gaussians.length p) (rank all_gaussians),
    List.pairwise_append] at hs
  exact ⟨hs.2.2, hs.2.1, List.take_append_drop _ _⟩

/-- Witness of C3: ten records with visibilities `0.1f, ..., 1.0f` and `P = 20` keep 8
records, the lowest kept visibility being `0.3f`. -/
theorem prune_removes_lowest_witness :
    ((∀ g ∈ ten_points, g.actual_opacity.isNaN = false) ∧ ten_points.length < 2 ^ 64 ∧
      (20 : Int) ∈ percentages_to_prune) ∧
    (kept_slice (rank ten_points) (num_to_remove ten_points.length 20)
      (num_to_keep ten_points.length 20)).map (fun g => g.actual_opacity) =
        [F32.pos 0x3E99999A, F32.pos 0x3ECCCCCD, F32.pos 0x3F000000, F32.pos 0x3F19999A,
         F32.pos 0x3F333333, F32.pos 0x3F4CCCCD, F32.pos 0x3F666666, F32.pos 0x3F800000] ∧
    (∀ a ∈ (rank ten_points).take (num_to_remove ten_points.length 20),
      ∀ b ∈ kept_slice (rank ten_points) (num_to_remove ten_points.length 20)
          (num_to_keep ten_points.length 20),
        F32.le a.actual_opacity b.actual_opacity = true) :=
  ⟨⟨by decide, by decide, by decide⟩, by decide,
    (prune_removes_lowest ten_points 20 (by decide) (by decide) (by decide)).1⟩

/-- C4, as stated, fails on a NaN visibility: the records `main` assembles from the
logits `3.0f, NaN, 1.0f, 2.0f` are ranked in the logit order `1.0f, 3.0f, NaN, 2.0f`,
and neither the pair (1, 2) nor the pair (2, 3) of the ranked sequence is ascending;
the visibility at index 3 is even strictly below the one at index 1. -/
theorem nan_rank_counterexample :
    (assemble nan_rows).map (fun gs => (rank gs).map (fun g => g.opacity_logit)) =
      some [F32.pos 0x3F800000, F32.pos 0x40400000, F32.nan, F32.pos 0x40000000] ∧
    (assemble nan_rows).map (fun gs => (rank gs).map (fun g => g.actual_opacity)) =
      some [F32.pos 0x3F3B26A8, F32.pos 0x3F73DBE6, F32.neg F32.nan, F32.pos 0x3F617BEA] ∧
    ∃ gs, assemble nan_rows = some gs ∧
    ∃ h : 2 + 1 < (rank gs).length,
      F32.le ((rank gs).get ⟨1, Nat.lt_of_succ_lt (Nat.lt_of_succ_lt h)⟩).actual_opacity
        ((rank gs).get ⟨2, Nat.lt_of_succ_lt h⟩).actual_opacity = false ∧
      F32.le ((rank gs).get ⟨2, Nat.lt_of_succ_lt h⟩).actual_opacity
        ((rank gs).get ⟨2 + 1, h⟩).actual_opacity = false ∧
      F32.lt ((rank gs).get ⟨2 + 1, h⟩).actual_opacity
        ((rank gs).get ⟨1, Nat.lt_of_succ_lt (Nat.lt_of_succ_lt h)⟩).actual_opacity = true :=
  ⟨by decide, by decide, nan_points, by decide, by decide, by decide, by decide, by decide⟩

/-- C4 (amended): for every record sequence none of whose visibilities is NaN, after
the ranking step every adjacent pair `(i, i + 1)` of the ranked sequence satisfies
`visibility(i) <= visibility(i + 1)`. -/
theorem rank_adjacent_ascending (all_gaussians : List (Gaussian F32))
    (hnan : ∀ g ∈ all_gaussians, g.actual_opacity.isNaN = false)
    (i : Nat) (h : i + 1 < (rank all_gaussians).length) :
    F32.le ((rank all_gaussians).get ⟨i, Nat.lt_of_succ_lt h⟩).actual_opacity
      ((rank all_gaussians).get ⟨i + 1, h⟩).actual_opacity = true :=
  List.pairwise_iff_get.mp (rank_sorted all_gaussians hnan) ⟨i, Nat.lt_of_succ_lt h⟩
    ⟨i + 1, h⟩ (Nat.lt_succ_self i)

/-- Witness of C4: the first two records of the ranking of `three_points`. -/
theorem rank_adjacent_ascending_witness :
    (∀ g ∈ three_points, g.actual_opacity.isNaN = false) ∧
    ∃ h : 0 + 1 < (rank three_points).length,
      F32.le ((rank three_points).get ⟨0, Nat.lt_of_succ_lt h⟩).actual_opacity
        ((rank three_points).get ⟨0 + 1, h⟩).actual_opacity = true :=
  ⟨by decide, by decide,
   rank_adjacent_ascending three_points (by decide) 0 (by decide)⟩

/-! ## Monotonicity in the percentage -/

/-- C5: for every ranked sequence the program can hold (length at most `max_size()`)
and every two percentages `0 ≤ P1 < P2 ≤ 100`, the kept slice for `P2` is a suffix of
the kept slice for `P1`, every record kept for `P2` is kept for `P1`, and
`num_to_keep(P2) ≤ num_to_keep(P1)`. -/
theorem kept_slice_monotone {F : Type} (ranked : List (Gaussian F)) (p1 p2 : Int)
    (hN : ranked.length ≤ MAX_SIZE) (hp1 : 0 ≤ p1) (h12 : p1 < p2) (hp2 : p2 ≤ 100) :
    kept_slice ranked (num_to_remove ranked.length p2) (num_to_keep ranked.length p2) <:+
      kept_slice ranked (num_to_remove ranked.length p1) (num_to_keep ranked.length p1) ∧
    (∀ g ∈ kept_slice ranked (num_to_remove ranked.length p2) (num_to_keep ranked.length p2),
      g ∈ kept_slice ranked (num_to_remove ranked.length p1)
        (num_to_keep ranked.length p1)) ∧
    num_to_keep ranked.length p2 ≤ num_to_keep ranked.length p1 := by
  have hp2' : 0 ≤ p2 := by omega
  have hp1' : p1 ≤ 100 := by omega
  have hN64 := max_size_lt ranked.length hN
  have hmul : (ranked.length : Int) * p1 ≤ (ranked.length : Int) * p2 :=
    Int.mul_le_mul_of_nonneg_left (Int.le_of_lt h12) (Int.ofNat_nonneg _)
  have e1 := num_to_remove_exact ranked.length p1 hp1 hp1'
    (max_size_no_wrap ranked.length p1 hN hp1')
  have e2 := num_to_remove_exact ranked.length p2 hp2' hp2
    (max_size_no_wrap ranked.length p2 hN hp2)
  have hdiv : (ranked.length : Int) * p1 / 100 ≤ (ranked.length : Int) * p2 / 100 :=
    Int.ediv_le_ediv (by decide) hmul
  have hr : num_to_remove ranked.length p1 ≤ num_to_remove ranked.length p2 := by
    have : (num_to_remove ranked.length p1 : Int) ≤ (num_to_remove ranked.length p2 : Int) := by
      rw [e1, e2]; exact hdiv
    exact_mod_cast this
  have hle2 := num_to_remove_le ranked.length p2 hp2' hp2
  rw [kept_slice_eq_drop ranked p1 hN64 hp1 hp1', kept_slice_eq_drop ranked p2 hN64 hp2' hp2,
    num_to_keep_eq _ p1 hN64 hp1 hp1', num_to_keep_eq _ p2 hN64 hp2' hp2]
  have hsuf : ranked.drop (num_to_remove ranked.length p2) <:+
      ranked.drop (num_to_remove ranked.length p1) := by
    have hd : ranked.drop (num_to_remove ranked.length p2) =
        (ranked.drop (num_to_remove ranked.length p1)).drop
          (num_to_remove ranked.length p2 - num_to_remove ranked.length p1) := by
      rw [List.drop_drop]
      congr 1
      omega
    rw [hd]
    exact List.drop_suffix _ _
  exact ⟨hsuf, fun g hg => hsuf.subset hg, by omega⟩

/-- Witness of C5: ten records, `P1 = 10` and `P2 = 20`: 9 and 8 records are kept. -/
theorem kept_slice_monotone_witness :
    (ten_points.length ≤ MAX_SIZE ∧ (0 : Int) ≤ 10 ∧ (10 : Int) < 20 ∧ (20 : Int) ≤ 100) ∧
    (num_to_keep ten_points.length 10 = 9 ∧ num_to_keep ten_points.length 20 = 8) ∧
    num_to_keep ten_points.length 20 ≤ num_to_keep ten_points.length 10 ∧
    kept_slice ten_points (num_to_remove ten_points.length 20)
        (num_to_keep ten_points.length 20) <:+
      kept_slice ten_points (num_to_remove ten_points.length 10)
        (num_to_keep ten_points.length 10) :=
  ⟨⟨by decide, by decide, by decide, by decide⟩, ⟨by decide, by decide⟩,
   (kept_slice_monotone ten_points 10 20 (by decide) (by decide) (by decide) (by decide)).2.2,
   (kept_slice_monotone ten_points 10 20 (by decide) (by decide) (by decide) (by decide)).1⟩

/-! ## Assembling and re-expanding -/

theorem map_getD_range_of_length {α : Type} (l : List α) (d : α) (N : Nat)
    (h : l.length = N) : (List.range N).map (fun i => l.getD i d) = l := by
  subst h
  exact map_getD_range l d

theorem row_f_rest_getD {F : Type} [FloatOps F] (a : Columns F) (i j : Nat) (hj : j < 45) :
    (a.row i).f_rest.getD j FloatOps.zero =
      (a.f_rest_all.getD j []).getD i FloatOps.zero := by
  simp [Columns.row, List.getD_eq_getElem?_getD, List.getElem?_range hj]

theorem map_row_field {F : Type} [FloatOps F] (a : Columns F) (N : Nat)
    (f : Gaussian F → F) (l : List F) (h : l.length = N)
    (hf : ∀ i, f (a.row i) = l.getD i FloatOps.zero) :
    ((List.range N).map a.row).map f = l := by
  rw [List.map_map]
  refine Eq.trans (List.map_congr_left ?_) (map_getD_range_of_length l FloatOps.zero N h)
  intro i _
  exact hf i

theorem map_row_f_rest {F : Type} [FloatOps F] (a : Columns F) (N : Nat)
    (h45 : a.f_rest_all.length = 45) (hcol : ∀ col ∈ a.f_rest_all, col.length = N) :
    (List.range 45).map (fun j =>
      ((List.range N).map a.row).map (fun g => g.f_rest.getD j FloatOps.zero)) =
      a.f_rest_all := by
  have h1 := map_getD_range_of_length a.f_rest_all [] 45 h45
  have key : ∀ j, j ∈ List.range 45 →
      ((List.range N).map a.row).map (fun g => g.f_rest.getD j FloatOps.zero) =
        a.f_rest_all.getD j [] := by
    intro j hj
    have hj45 : j < 45 := List.mem_range.mp hj
    have hjl : j < a.f_rest_all.length := by rw [h45]; exact hj45
    have hmem : a.f_rest_all.getD j [] ∈ a.f_rest_all := by
      rw [List.getD_eq_getElem?_getD, List.getElem?_eq_getElem hjl]
      exact List.getElem_mem hjl
    have h2 := map_getD_range_of_length (a.f_rest_all.getD j []) FloatOps.zero N
      (hcol _ hmem)
    rw [List.map_map]
    refine Eq.trans (List.map_congr_left ?_) h2
    intro i _
    exact row_f_rest_getD a i j hj45
  exact Eq.trans (List.map_congr_left key) h1

theorem ofGaussians_map_row {F : Type} [FloatOps F] (a : Columns F) (N : Nat)
    (h : a.HasLength N) : Columns.ofGaussians ((List.range N).map a.row) = a := by
  obtain ⟨h_x, h_y, h_z, h_nxx, h_ny, h_nz, h_f_dc_0, h_f_dc_1, h_f_dc_2, h_opacity, 
    h_scale_0, h_scale_1, h_scale_2, h_rot_0, h_rot_1, h_rot_2, h_rot_3, h45, hcol⟩ := h
  apply Columns.ext
  · exact map_row_field a N _ _ h_x (fun _ => rfl)
  · exact map_row_field a N _ _ h_y (fun _ => rfl)
  · exact map_row_field a N _ _ h_z (fun _ => rfl)
  · exact map_row_field a N _ _ h_nxx (fun _ => rfl)
  · exact map_row_field a N _ _ h_ny (fun _ => rfl)
  · exact map_row_field a N _ _ h_nz (fun _ => rfl)
  · exact map_row_field a N _ _ h_f_dc_0 (fun _ => rfl)
  · exact map_row_field a N _ _ h_f_dc_1 (fun _ => rfl)
  · exact map_row_field a N _ _ h_f_dc_2 (fun _ => rfl)
  · exact map_row_field a N _ _ h_opacity (fun _ => rfl)
  · exact map_row_field a N _ _ h_scale_0 (fun _ => rfl)
  · exact map_row_field a N _ _ h_scale_1 (fun _ => rfl)
  · exact map_row_field a N _ _ h_scale_2 (fun _ => rfl)
  · exact map_row_field a N _ _ h_rot_0 (fun _ => rfl)
  · exact map_row_field a N _ _ h_rot_1 (fun _ => rfl)
  · exact map_row_field a N _ _ h_rot_2 (fun _ => rfl)
  · exact map_row_field a N _ _ h_rot_3 (fun _ => rfl)
  · exact map_row_f_rest a N h45 hcol

/-- C7: for every `N` and arrays all of length `N` (45 `f_rest` arrays), the assembler
returns exactly `N` records in input order; record `i` holds entry `i` of each of the 17
scalar arrays, its `f_rest` has 45 entries with `f_rest[j]` equal to entry `i` of the
`j`-th `f_rest` array, and its `actual_opacity` is the visibility of its own logit, the
float value of `1.0f / (1.0f + exp(-opacity_logit))`. -/
theorem assemble_records {F : Type} [FloatOps F] (a : Columns F) (N : Nat)
    (h : a.HasLength N) :
    ∃ gs, assemble a = some gs ∧ gs.length = N ∧
      ∀ i, i < N → ∃ g, gs[i]? = some g ∧
        a.x[i]? = some g.x ∧
        a.y[i]? = some g.y ∧
        a.z[i]? = some g.z ∧
        a.nxx[i]? = some g.nxx ∧
        a.ny[i]? = some g.ny ∧
        a.nz[i]? = some g.nz ∧
        a.f_dc_0[i]? = some g.f_dc_0 ∧
        a.f_dc_1[i]? = some g.f_dc_1 ∧
        a.f_dc_2[i]? = some g.f_dc_2 ∧
        a.opacity[i]? = some g.opacity_logit ∧
        a.scale_0[i]? = some g.scale_0 ∧
        a.scale_1[i]? = some g.scale_1 ∧
        a.scale_2[i]? = some g.scale_2 ∧
        a.rot_0[i]? = some g.rot_0 ∧
        a.rot_1[i]? = some g.rot_1 ∧
        a.rot_2[i]? = some g.rot_2 ∧
        a.rot_3[i]? = some g.rot_3 ∧
        g.f_rest.length = 45 ∧
        (∀ j, j < 45 → ∃ col v,
          a.f_rest_all[j]? = some col ∧ col[i]? = some v ∧ g.f_rest[j]? = some v) ∧
        g.actual_opacity =
          FloatOps.div FloatOps.one
            (FloatOps.add FloatOps.one (FloatOps.exp (FloatOps.neg g.opacity_logit))) := by
  have hc := HasLength.covers a N h
  obtain ⟨h_x, h_y, h_z, h_nxx, h_ny, h_nz, h_f_dc_0, h_f_dc_1, h_f_dc_2, h_opacity, 
    h_scale_0, h_scale_1, h_scale_2, h_rot_0, h_rot_1, h_rot_2, h_rot_3, h45, hcol⟩ := h
  have hasm := assemble_eq a (by rw [h_x]; exact hc)
  rw [h_x] at hasm
  refine ⟨_, hasm, by rw [List.length_map, List.length_range], ?_⟩
  intro i hi
  have hrow : ((List.range N).map a.row)[i]? = some (a.row i) := by
    rw [List.getElem?_map, List.getElem?_range hi]
    rfl
  have hflen : (a.row i).f_rest.length = 45 := by
    show ((List.range 45).map _).length = 45
    rw [List.length_map, List.length_range]
  refine ⟨a.row i, hrow,
    getElem?_eq_some_getD a.x i FloatOps.zero (by rw [h_x]; exact hi),
    getElem?_eq_some_getD a.y i FloatOps.zero (by rw [h_y]; exact hi),
    getElem?_eq_some_getD a.z i FloatOps.zero (by rw [h_z]; exact hi),
    getElem?_eq_some_getD a.nxx i FloatOps.zero (by rw [h_nxx]; exact hi),
    getElem?_eq_some_getD a.ny i FloatOps.zero (by rw [h_ny]; exact hi),
    getElem?_eq_some_getD a.nz i FloatOps.zero (by rw [h_nz]; exact hi),
    getElem?_eq_some_getD a.f_dc_0 i FloatOps.zero (by rw [h_f_dc_0]; exact hi),
    getElem?_eq_some_getD a.f_dc_1 i FloatOps.zero (by rw [h_f_dc_1]; exact hi),
    getElem?_eq_some_getD a.f_dc_2 i FloatOps.zero (by rw [h_f_dc_2]; exact hi),
    getElem?_eq_some_getD a.opacity i FloatOps.zero (by rw [h_opacity]; exact hi),
    getElem?_eq_some_getD a.scale_0 i FloatOps.zero (by rw [h_scale_0]; exact hi),
    getElem?_eq_some_getD a.scale_1 i FloatOps.zero (by rw [h_scale_1]; exact hi),
    getElem?_eq_some_getD a.scale_2 i FloatOps.zero (by rw [h_scale_2]; exact hi),
    getElem?_eq_some_getD a.rot_0 i FloatOps.zero (by rw [h_rot_0]; exact hi),
    getElem?_eq_some_getD a.rot_1 i FloatOps.zero (by rw [h_rot_1]; exact hi),
    getElem?_eq_some_getD a.rot_2 i FloatOps.zero (by rw [h_rot_2]; exact hi),
    getElem?_eq_some_getD a.rot_3 i FloatOps.zero (by rw [h_rot_3]; exact hi),
    hflen, ?_, rfl⟩
  intro j hj
  have hjl : j < a.f_rest_all.length := by rw [h45]; exact hj
  have hlen : (a.f_rest_all[j]).length = N := hcol _ (List.getElem_mem hjl)
  have hgd : a.f_rest_all.getD j [] = a.f_rest_all[j] := by
    rw [List.getD_eq_getElem?_getD, List.getElem?_eq_getElem hjl]
    rfl
  refine ⟨a.f_rest_all[j], (a.f_rest_all[j]).getD i FloatOps.zero,
    List.getElem?_eq_getElem hjl,
    getElem?_eq_some_getD _ i _ (by rw [hlen]; exact hi), ?_⟩
  rw [getElem?_eq_some_getD (a.row i).f_rest j FloatOps.zero (by rw [hflen]; exact hj),
    row_f_rest_getD a i j hj, hgd]

/-- Witness of C7: the two-row sample scene with the logits `0.0f` and `3.0f`; the
visibilities of its records are `0.5f` and `0.95257413f`. -/
theorem assemble_records_witness :
    two_rows.HasLength 2 ∧
    ∃ gs, assemble two_rows = some gs ∧ gs.length = 2 ∧
      gs.map (fun g => g.actual_opacity) = [F32.pos 0x3F000000, F32.pos 0x3F73DBE6] := by
  refine ⟨by decide, ?_⟩
  obtain ⟨gs, h1, h2, _⟩ := assemble_records two_rows 2 (by decide)
  refine ⟨gs, h1, h2, ?_⟩
  have hd : (assemble two_rows).map (fun l => l.map (fun g => g.actual_opacity)) =
      some [F32.pos 0x3F000000, F32.pos 0x3F73DBE6] := by decide
  rw [h1] at hd
  exact Option.some.inj hd

/-- C6: for arrays all of length `N` (45 `f_rest` arrays, `N` a `size_t` value),
assembling them as `main` does and re-expanding the whole record sequence
(`start_index = 0`, `count = N`) as `write_pruned_ply` does gives back the same arrays. -/
theorem assemble_write_roundtrip {F : Type} [FloatOps F] (a : Columns F) (N : Nat)
    (h : a.HasLength N) (hN : N < 2 ^ 64) :
    ∃ gs, assemble a = some gs ∧ write_columns gs 0 N = some a := by
  have hx : a.x.length = N := h.1
  have hasm := assemble_eq a (by rw [hx]; exact HasLength.covers a N h)
  rw [hx] at hasm
  refine ⟨_, hasm, ?_⟩
  have hlen : ((List.range N).map a.row).length = N := by simp
  rw [write_columns_eq _ 0 N (by omega) (by omega)
    (fun g hg => by
      obtain ⟨i, _, rfl⟩ := List.mem_map.mp hg
      simp [Columns.row])]
  congr 1
  rw [List.drop_zero, List.take_of_length_le (Nat.le_of_eq hlen)]
  exact ofGaussians_map_row a N h

/-- Witness of C6: the two-row sample scene. -/
theorem assemble_write_roundtrip_witness :
    (two_rows.HasLength 2 ∧ 2 < 2 ^ 64) ∧
    ∃ gs, assemble two_rows = some gs ∧ write_columns gs 0 2 = some two_rows :=
  ⟨⟨by decide, by decide⟩, assemble_write_roundtrip two_rows 2 (by decide) (by decide)⟩

/-! ## The run -/

theorem mapM_some {α β : Type} (f : α → Option β) (r : α → β) (l : List α)
    (h : ∀ p ∈ l, f p = some (r p)) : l.mapM f = some (l.map r) := by
  induction l with
  | nil => rfl
  | cons p ps ih =>
    rw [List.mapM_cons, h p (List.mem_cons_self p ps),
      ih (fun q hq => h q (List.mem_cons_of_mem p hq))]
    rfl

theorem main_body_unfold {F : Type} [FloatOps F] (base_name output_dir : String)
    (a : Columns F) (hN : a.x.length ≤ MAX_SIZE) :
    main_body base_name output_dir a =
      (assemble a).bind (fun gs =>
        percentages_to_prune.mapM (prune_one base_name output_dir (rank gs) a.x.length)) := by
  unfold main_body
  simp only [Nat.not_lt.mpr hN, if_false]
  rfl

/-- A run that writes anything has passed `reserve`: its point count is at most
`max_size()`. -/
theorem main_body_some_le {F : Type} [FloatOps F] (base_name output_dir : String)
    (a : Columns F) (outs : List (PlyFile F))
    (h : main_body base_name output_dir a = some outs) : a.x.length ≤ MAX_SIZE := by
  apply Nat.le_of_not_lt
  intro hlt
  unfold main_body at h
  simp only [hlt, if_true] at h
  exact absurd h (by simp)

theorem prune_one_eq {F : Type} [FloatOps F] (base_name output_dir : String)
    (ranked : List (Gaussian F)) (p : Int) (hN : ranked.length < 2 ^ 64)
    (h45 : ∀ g ∈ ranked, 45 ≤ g.f_rest.length) (hp : p ∈ percentages_to_prune) :
    prune_one base_name output_dir ranked ranked.length p =
      some (PlyFile.ofRecords
        { output_dir := output_dir, output_filename := output_filename base_name p }
        (num_to_keep ranked.length p) (ranked.drop (num_to_remove ranked.length p))) := by
  obtain ⟨hp0, hp100⟩ := percentages_bounds p hp
  have hsum := start_add_count ranked.length p hN hp0 hp100
  have hk := kept_slice_eq_drop ranked p hN hp0 hp100
  unfold kept_slice at hk
  unfold prune_one
  rw [write_pruned_ply_eq _ ranked _ _ (Nat.le_of_eq hsum) hN h45, hk]
  rfl

theorem main_body_of_assemble {F : Type} [FloatOps F]
    (base_name output_dir : String) (a : Columns F) (gs : List (Gaussian F))
    (hasm : assemble a = some gs) (hlen : gs.length = a.x.length)
    (hN : a.x.length ≤ MAX_SIZE) (h45 : ∀ g ∈ gs, 45 ≤ g.f_rest.length) :
    main_body base_name output_dir a =
      some (percentages_to_prune.map (fun p => PlyFile.ofRecords
        { output_dir := output_dir, output_filename := output_filename base_name p }
        (num_to_keep a.x.length p) ((rank gs).drop (num_to_remove a.x.length p)))) := by
  rw [main_body_unfold base_name output_dir a hN, hasm, Option.some_bind]
  apply mapM_some
  intro p hp
  have hrl : (rank gs).length = a.x.length := by rw [rank_length, hlen]
  have h := prune_one_eq base_name output_dir (rank gs) p
    (by rw [hrl]; exact max_size_lt _ hN)
    (fun g hg => h45 g ((rank_perm gs).mem_iff.mp hg)) hp
  rw [hrl] at h
  exact h

theorem main_body_eq {F : Type} [FloatOps F] (base_name output_dir : String)
    (a : Columns F) (hc : a.Covers a.x.length) (hN : a.x.length ≤ MAX_SIZE) :
    main_body base_name output_dir a =
      some (percentages_to_prune.map (fun p => PlyFile.ofRecords
        { output_dir := output_dir, output_filename := output_filename base_name p }
        (num_to_keep a.x.length p)
        ((rank ((List.range a.x.length).map a.row)).drop (num_to_remove a.x.length p)))) := by
  apply main_body_of_assemble base_name output_dir a _ (assemble_eq a hc)
    (by rw [List.length_map, List.length_range]) hN
  intro g hg
  obtain ⟨i, _, rfl⟩ := List.mem_map.mp hg
  show 45 ≤ ((List.range 45).map _).length
  rw [List.length_map, List.length_range]

theorem output_filename_eq (base_name : String) (p : Int) (digits : String)
    (h : toString p = digits) :
    output_filename base_name p = base_name ++ ("_pruned_opacity_" ++ (digits ++ ".ply")) := by
  unfold output_filename
  rw [h, String.append_assoc, String.append_assoc]

theorem num_to_keep_nat (N q : Nat) (hN : N ≤ MAX_SIZE) (hq : q ≤ 100) :
    num_to_keep N (q : Int) = N - N * q / 100 := by
  have hq0 : (0 : Int) ≤ (q : Int) := Int.ofNat_nonneg q
  have hq100 : (q : Int) ≤ 100 := by exact_mod_cast hq
  have hr := num_to_remove_exact N (q : Int) hq0 hq100 (max_size_no_wrap N q hN hq100)
  have hr' : num_to_remove N (q : Int) = N * q / 100 := by exact_mod_cast hr
  rw [num_to_keep_eq N (q : Int) (max_size_lt N hN) hq0 hq100, hr']

/-- The five files of a run over arrays that cover `x.size()` rows. -/
theorem main_body_five {F : Type} [FloatOps F] (base_name output_dir : String)
    (a : Columns F) (hc : a.Covers a.x.length) (hN : a.x.length ≤ MAX_SIZE) :
    ∃ o10 o20 o30 o40 o50,
      main_body base_name output_dir a = some [o10, o20, o30, o40, o50] ∧
      (o10.path = { output_dir := output_dir,
                     output_filename := base_name ++ "_pruned_opacity_10.ply" } ∧
        o10.count = num_to_keep a.x.length 10) ∧
      (o20.path = { output_dir := output_dir,
                     output_filename := base_name ++ "_pruned_opacity_20.ply" } ∧
        o20.count = num_to_keep a.x.length 20) ∧
      (o30.path = { output_dir := output_dir,
                     output_filename := base_name ++ "_pruned_opacity_30.ply" } ∧
        o30.count = num_to_keep a.x.length 30) ∧
      (o40.path = { output_dir := output_dir,
                     output_filename := base_name ++ "_pruned_opacity_40.ply" } ∧
        o40.count = num_to_keep a.x.length 40) ∧
      (o50.path = { output_dir := output_dir,
                     output_filename := base_name ++ "_pruned_opacity_50.ply" } ∧
        o50.count = num_to_keep a.x.length 50) := by
  have hmb := main_body_eq base_name output_dir a hc hN
  simp only [percentages_to_prune, List.map_cons, List.map_nil] at hmb
  refine ⟨_, _, _, _, _, hmb, ?_, ?_, ?_, ?_, ?_⟩
  all_goals
    refine ⟨?_, rfl⟩
    simp only [PlyFile.ofRecords]
    congr 1
  · exact output_filename_eq base_name 10 "10" rfl
  · exact output_filename_eq base_name 20 "20" rfl
  · exact output_filename_eq base_name 30 "30" rfl
  · exact output_filename_eq base_name 40 "40" rfl
  · exact output_filename_eq base_name 50 "50" rfl

/-- C8, as stated, fails: in the scene `longer_y` the array `y` has 3 entries and `x`
has 2, yet the assembler returns 2 records and the run writes its five files. -/
theorem longer_array_counterexample :
    longer_y.y.length ≠ longer_y.x.length ∧
    (∃ gs, assemble longer_y = some gs ∧ gs.length = 2) ∧
    ∃ outs, main_body "scene" "out" longer_y = some outs ∧ outs.length = 5 := by
  refine ⟨by decide, ⟨_, assemble_eq longer_y (by decide), by decide⟩, ?_⟩
  exact ⟨_, main_body_eq "scene" "out" longer_y (by decide) (by decide), by decide⟩

/-- C8 (amended): the assembler compares no lengths and rejects no length mismatch.
With `N = x.size()`, whenever every attribute array has at least `N` entries (arrays
longer than `x` included) it returns `N` records, and for a count the program can hold
the run then writes its five files. -/
theorem assemble_accepts_longer {F : Type} [FloatOps F] (base_name output_dir : String)
    (a : Columns F) (hc : a.Covers a.x.length) :
    (∃ gs, assemble a = some gs ∧ gs.length = a.x.length) ∧
    (a.x.length ≤ MAX_SIZE →
      ∃ outs, main_body base_name output_dir a = some outs ∧ outs.length = 5) :=
  ⟨⟨_, assemble_eq a hc, by rw [List.length_map, List.length_range]⟩,
   fun hN => ⟨_, main_body_eq base_name output_dir a hc hN, by
     rw [List.length_map]; rfl⟩⟩

/-- Witness of C8: `longer_y`, whose `y` has one entry more than `x`, is assembled into
2 records and written to five files. -/
theorem assemble_accepts_longer_witness :
    (longer_y.Covers longer_y.x.length ∧ longer_y.y.length = longer_y.x.length + 1) ∧
    (∃ gs, assemble longer_y = some gs ∧ gs.length = longer_y.x.length) ∧
    ∃ outs, main_body "scene" "out" longer_y = some outs ∧ outs.length = 5 :=
  ⟨⟨by decide, by decide⟩,
   (assemble_accepts_longer "scene" "out" longer_y (by decide)).1,
   (assemble_accepts_longer "scene" "out" longer_y (by decide)).2 (by decide)⟩

/-- C9: for every input scene of `N` points the program can hold (`N ≤ max_size()`),
one run produces exactly five outputs, for 10, 20, 30, 40, 50 in that order; the output
for `P` is named `<base_name>_pruned_opacity_<P>.ply` inside the output directory and
has element count `N - floor(N * P / 100)`. -/
theorem run_outputs {F : Type} [FloatOps F] (base_name output_dir : String)
    (a : Columns F) (N : Nat) (h : a.HasLength N) (hN : N ≤ MAX_SIZE) :
    ∃ o10 o20 o30 o40 o50,
      main_body base_name output_dir a = some [o10, o20, o30, o40, o50] ∧
      (o10.path = { output_dir := output_dir,
                     output_filename := base_name ++ "_pruned_opacity_10.ply" } ∧
        o10.count = N - N * 10 / 100) ∧
      (o20.path = { output_dir := output_dir,
                     output_filename := base_name ++ "_pruned_opacity_20.ply" } ∧
        o20.count = N - N * 20 / 100) ∧
      (o30.path = { output_dir := output_dir,
                     output_filename := base_name ++ "_pruned_opacity_30.ply" } ∧
        o30.count = N - N * 30 / 100) ∧
      (o40.path = { output_dir := output_dir,
                     output_filename := base_name ++ "_pruned_opacity_40.ply" } ∧
        o40.count = N - N * 40 / 100) ∧
      (o50.path = { output_dir := output_dir,
                     output_filename := base_name ++ "_pruned_opacity_50.ply" } ∧
        o50.count = N - N * 50 / 100) := by
  have hx : a.x.length = N := h.1
  obtain ⟨o10, o20, o30, o40, o50, hmb, h10, h20, h30, h40, h50⟩ :=
    main_body_five base_name output_dir a (by rw [hx]; exact HasLength.covers a N h)
      (by rw [hx]; exact hN)
  rw [hx] at h10 h20 h30 h40 h50
  exact ⟨o10, o20, o30, o40, o50, hmb,
    ⟨h10.1, by rw [h10.2]; exact num_to_keep_nat N 10 hN (by decide)⟩,
    ⟨h20.1, by rw [h20.2]; exact num_to_keep_nat N 20 hN (by decide)⟩,
    ⟨h30.1, by rw [h30.2]; exact num_to_keep_nat N 30 hN (by decide)⟩,
    ⟨h40.1, by rw [h40.2]; exact num_to_keep_nat N 40 hN (by decide)⟩,
    ⟨h50.1, by rw [h50.2]; exact num_to_keep_nat N 50 hN (by decide)⟩⟩

/-- Witness of C9: the two-row sample scene; its five files hold 2, 2, 2, 2 and 1
points. -/
theorem run_outputs_witness :
    (two_rows.HasLength 2 ∧ 2 ≤ MAX_SIZE) ∧
    ∃ o10 o20 o30 o40 o50,
      main_body "scene" "out" two_rows = some [o10, o20, o30, o40, o50] ∧
      o10.path = { output_dir := "out", output_filename := "scene_pruned_opacity_10.ply" } ∧
      o10.count = 2 ∧ o20.count = 2 ∧ o30.count = 2 ∧ o40.count = 2 ∧ o50.count = 1 := by
  refine ⟨⟨by decide, by decide⟩, ?_⟩
  obtain ⟨o10, o20, o30, o40, o50, hmb, h10, h20, h30, h40, h50⟩ :=
    run_outputs "scene" "out" two_rows 2 (by decide) (by decide)
  exact ⟨o10, o20, o30, o40, o50, hmb, h10.1, h10.2, h20.2, h30.2, h40.2, h50.2⟩

/-! ## The empty scene -/

theorem num_to_remove_zero (p : Int) : num_to_remove 0 p = 0 := by
  simp [num_to_remove]

theorem num_to_keep_zero (p : Int) : num_to_keep 0 p = 0 := by
  simp [num_to_keep, num_to_remove_zero, SIZE_MOD]

theorem ofRecords_nil {F : Type} [FloatOps F] (path : OutputPath) (count : Nat) :
    (PlyFile.ofRecords path count ([] : List (Gaussian F))).properties.length = 62 ∧
    ∀ pr ∈ (PlyFile.ofRecords path count ([] : List (Gaussian F))).properties, pr.2 = [] := by
  constructor
  · simp [PlyFile.ofRecords]
  · intro pr hpr
    simp only [PlyFile.ofRecords, List.map_nil, List.mem_append, List.mem_cons, List.mem_map,
      List.mem_range, List.not_mem_nil, or_false] at hpr
    rcases hpr with (h | h) | h
    · rcases h with h | h | h | h | h | h | h | h | h <;> rw [h]
    · obtain ⟨j, _, hj⟩ := h
      rw [← hj]
    · rcases h with h | h | h | h | h | h | h | h <;> rw [h]

/-- C10: for an empty input scene (`x.size() = 0`) the run does not fail:
`num_to_remove` is 0 for every percentage, and the run yields its five outputs, each
with 0 points, 62 arrays, and every array empty. -/
theorem empty_scene_run {F : Type} [FloatOps F] (base_name output_dir : String)
    (a : Columns F) (h0 : a.x.length = 0) :
    (∀ p : Int, num_to_remove a.x.length p = 0) ∧
    ∃ outs, main_body base_name output_dir a = some outs ∧ outs.length = 5 ∧
      ∀ out ∈ outs, out.count = 0 ∧ out.properties.length = 62 ∧
        ∀ pr ∈ out.properties, pr.2 = [] := by
  refine ⟨fun p => by rw [h0]; exact num_to_remove_zero p, ?_⟩
  have hasm : assemble a = some [] := by
    unfold assemble
    rw [h0]
    rfl
  have hmb := main_body_of_assemble base_name output_dir a [] hasm h0.symm
    (by rw [h0]; exact Nat.zero_le _) (fun g hg => absurd hg (List.not_mem_nil g))
  refine ⟨_, hmb, by simp [percentages_to_prune], ?_⟩
  intro out hout
  obtain ⟨p, _, rfl⟩ := List.mem_map.mp hout
  have hr : rank ([] : List (Gaussian F)) = [] := rfl
  rw [h0, hr, List.drop_nil, num_to_keep_zero]
  exact ⟨rfl, ofRecords_nil _ _⟩

/-- Witness of C10: the scene of zero rows writes five files of 0 points. -/
theorem empty_scene_run_witness :
    (equal_rows 0).x.length = 0 ∧
    ∃ outs, main_body "scene" "out" (equal_rows 0) = some outs ∧ outs.length = 5 ∧
      ∀ out ∈ outs, out.count = 0 ∧ out.properties.length = 62 ∧
        ∀ pr ∈ out.properties, pr.2 = [] :=
  ⟨by decide, (empty_scene_run "scene" "out" (equal_rows 0) (by decide)).2⟩

/-! ## Ranking only moves records -/

/-- C13: for every record sequence, the ranked sequence is a permutation of it: it has
the same length, every record occurs in it as often as in the assembled sequence, and
every record of it is, with all its fields, a record of the assembled sequence (and
conversely). -/
theorem rank_is_permutation {F : Type} [FloatOps F] [DecidableEq F] (all_gaussians : List (Gaussian F)) :
    (rank all_gaussians).Perm all_gaussians ∧
    (rank all_gaussians).length = all_gaussians.length ∧
    (∀ g : Gaussian F, (rank all_gaussians).count g = all_gaussians.count g) ∧
    (∀ g ∈ rank all_gaussians, g ∈ all_gaussians) ∧
    (∀ g ∈ all_gaussians, g ∈ rank all_gaussians) :=
  ⟨rank_perm all_gaussians, rank_length all_gaussians,
   fun g => (rank_perm all_gaussians).count_eq g,
   fun _ hg => (rank_perm all_gaussians).mem_iff.mp hg,
   fun _ hg => (rank_perm all_gaussians).mem_iff.mpr hg⟩

/-! ## The written arrays -/

theorem write_pruned_ply_ofRecords {F : Type} [FloatOps F] (path : OutputPath)
    (gaussians : List (Gaussian F)) (start_index count : Nat)
    (hin : start_index + count ≤ gaussians.length) (hN : gaussians.length < 2 ^ 64)
    (h45 : ∀ g ∈ gaussians, 45 ≤ g.f_rest.length) :
    write_pruned_ply path gaussians start_index count =
      some (PlyFile.ofRecords path count ((gaussians.drop start_index).take count)) :=
  write_pruned_ply_eq path gaussians start_index count hin hN h45

theorem slice_length {α : Type} (l : List α) (start_index count : Nat)
    (hin : start_index + count ≤ l.length) : ((l.drop start_index).take count).length = count := by
  rw [List.length_take, List.length_drop]
  omega

theorem ofRecords_names {F : Type} [FloatOps F] (path : OutputPath) (count : Nat)
    (kept : List (Gaussian F)) :
    (PlyFile.ofRecords path count kept).properties.map Prod.fst =
      ["x", "y", "z", "nxx", "ny", "nz", "f_dc_0", "f_dc_1", "f_dc_2"] ++
      (List.range 45).map (fun j => "f_rest_" ++ toString j) ++
      ["opacity", "scale_0", "scale_1", "scale_2", "rot_0", "rot_1", "rot_2", "rot_3"] := by
  simp [PlyFile.ofRecords, Function.comp_def]

theorem property_names_nodup :
    (["x", "y", "z", "nxx", "ny", "nz", "f_dc_0", "f_dc_1", "f_dc_2"] ++
      (List.range 45).map (fun j => "f_rest_" ++ toString j) ++
      ["opacity", "scale_0", "scale_1", "scale_2", "rot_0", "rot_1", "rot_2",
        "rot_3"]).Nodup := by
  decide

theorem ofRecords_lengths {F : Type} [FloatOps F] (path : OutputPath) (count : Nat)
    (kept : List (Gaussian F)) :
    (PlyFile.ofRecords path count kept).properties.length = 62 ∧
    ∀ pr ∈ (PlyFile.ofRecords path count kept).properties, pr.2.length = kept.length := by
  constructor
  · simp [PlyFile.ofRecords]
  · intro pr hpr
    simp only [PlyFile.ofRecords, List.mem_append, List.mem_cons, List.mem_map,
      List.mem_range, List.not_mem_nil, or_false] at hpr
    rcases hpr with (h | h) | h
    · rcases h with h | h | h | h | h | h | h | h | h <;> rw [h] <;> exact List.length_map _ _
    · obtain ⟨j, _, hj⟩ := h
      rw [← hj]
      exact List.length_map _ _
    · rcases h with h | h | h | h | h | h | h | h <;> rw [h] <;> exact List.length_map _ _

theorem ofRecords_opacity {F : Type} [FloatOps F] (path : OutputPath) (count : Nat)
    (kept : List (Gaussian F)) :
    (PlyFile.ofRecords path count kept).properties.lookup "opacity" =
      some (kept.map (fun g => g.opacity_logit)) := by
  rfl

theorem ofRecords_actual_opacity {F : Type} [FloatOps F] (path : OutputPath) (count : Nat)
    (kept : List (Gaussian F)) (v : Gaussian F → F) :
    PlyFile.ofRecords path count (kept.map (fun g => { g with actual_opacity := v g })) =
      PlyFile.ofRecords path count kept := by
  simp [PlyFile.ofRecords, Function.comp_def]

/-- C14: for every record sequence (of `size_t` length, records carrying their 45
`f_rest` entries), `start_index` and `count` with `start_index + count` within the
sequence, the array `write_pruned_ply` registers under the name `opacity` is its local
`opacity`, whose entry `k < count` is the `opacity_logit` of record `start_index + k`;
and the file written is the same whatever the records' `actual_opacity` values are. -/
theorem written_opacity_is_logit {F : Type} [FloatOps F] (path : OutputPath)
    (gaussians : List (Gaussian F)) (start_index count : Nat)
    (hin : start_index + count ≤ gaussians.length) (hN : gaussians.length < 2 ^ 64)
    (h45 : ∀ g ∈ gaussians, 45 ≤ g.f_rest.length) :
    ∃ out c, write_pruned_ply path gaussians start_index count = some out ∧
      write_columns gaussians start_index count = some c ∧
      out.properties.lookup "opacity" = some c.opacity ∧
      (∀ k, k < count → ∃ g, gaussians[start_index + k]? = some g ∧
        c.opacity[k]? = some g.opacity_logit) ∧
      ∀ v : Gaussian F → F,
        write_pruned_ply path
          (gaussians.map (fun g => { g with actual_opacity := v g })) start_index count =
          some out := by
  refine ⟨_, _, write_pruned_ply_ofRecords path gaussians start_index count hin hN h45,
    write_columns_eq gaussians start_index count hin hN h45,
    ofRecords_opacity path count _, ?_, ?_⟩
  · intro k hk
    have hlt : start_index + k < gaussians.length := by omega
    exact ⟨gaussians[start_index + k], List.getElem?_eq_getElem hlt,
      slice_map_getElem? gaussians _ _ _ k hk hlt⟩
  · intro v
    rw [write_pruned_ply_ofRecords path _ start_index count
      (by rw [List.length_map]; exact hin) (by rw [List.length_map]; exact hN)
      (fun g hg => by
        obtain ⟨g', hg', rfl⟩ := List.mem_map.mp hg
        exact h45 g' hg')]
    rw [← List.map_drop, ← List.map_take, ofRecords_actual_opacity]

/-- Witness of C14: the last two of `three_points`; their logits `1.0f` and `2.0f` are
written. -/
theorem written_opacity_is_logit_witness :
    (1 + 2 ≤ three_points.length ∧ three_points.length < 2 ^ 64) ∧
    ∃ out, write_pruned_ply { output_dir := "out", output_filename := "scene.ply" }
        three_points 1 2 = some out ∧
      out.properties.lookup "opacity" = some [F32.pos 0x3F800000, F32.pos 0x40000000] := by
  refine ⟨⟨by decide, by decide⟩, ?_⟩
  obtain ⟨out, c, h1, h2, h3, _, _⟩ := written_opacity_is_logit
    { output_dir := "out", output_filename := "scene.ply" } three_points 1 2
    (by decide) (by decide) (by decide)
  refine ⟨out, h1, ?_⟩
  rw [h3]
  have hc := write_columns_eq three_points 1 2 (by decide) (by decide) (by decide)
  rw [hc] at h2
  cases h2
  rfl

/-- C15: for every record sequence (of `size_t` length, records carrying their 45
`f_rest` entries), `start_index` and `count` with `start_index + count` within the
sequence, `write_pruned_ply` declares `count` vertices and registers exactly 62 arrays
under pairwise different names, the 17 scalar attributes and `f_rest_0 ... f_rest_44`,
each of length exactly `count`. -/
theorem written_arrays_shape {F : Type} [FloatOps F] (path : OutputPath)
    (gaussians : List (Gaussian F)) (start_index count : Nat)
    (hin : start_index + count ≤ gaussians.length) (hN : gaussians.length < 2 ^ 64)
    (h45 : ∀ g ∈ gaussians, 45 ≤ g.f_rest.length) :
    ∃ out, write_pruned_ply path gaussians start_index count = some out ∧
      out.count = count ∧
      out.properties.length = 62 ∧
      out.properties.map Prod.fst =
        ["x", "y", "z", "nxx", "ny", "nz", "f_dc_0", "f_dc_1", "f_dc_2"] ++
        (List.range 45).map (fun j => "f_rest_" ++ toString j) ++
        ["opacity", "scale_0", "scale_1", "scale_2", "rot_0", "rot_1", "rot_2", "rot_3"] ∧
      (out.properties.map Prod.fst).Nodup ∧
      ∀ pr ∈ out.properties, pr.2.length = count := by
  have hlen := slice_length gaussians start_index count hin
  have hl := ofRecords_lengths path count ((gaussians.drop start_index).take count)
  rw [hlen] at hl
  refine ⟨_, write_pruned_ply_ofRecords path gaussians start_index count hin hN h45, rfl,
    hl.1, ofRecords_names path count _, ?_, hl.2⟩
  rw [ofRecords_names]
  exact property_names_nodup

/-- Witness of C15: the last two of `three_points` give 62 arrays of length 2. -/
theorem written_arrays_shape_witness :
    (1 + 2 ≤ three_points.length ∧ three_points.length < 2 ^ 64) ∧
    ∃ out, write_pruned_ply { output_dir := "out", output_filename := "scene.ply" }
        three_points 1 2 = some out ∧
      out.count = 2 ∧ out.properties.length = 62 ∧ ∀ pr ∈ out.properties, pr.2.length = 2 := by
  refine ⟨⟨by decide, by decide⟩, ?_⟩
  obtain ⟨out, h1, h2, h3, _, _, h6⟩ := written_arrays_shape
    { output_dir := "out", output_filename := "scene.ply" } three_points 1 2
    (by decide) (by decide) (by decide)
  exact ⟨out, h1, h2, h3, h6⟩

/-! ## Indices of the output assembly -/

theorem forRange_induction {σ : Type} (P : Nat → σ → Prop) (n : Nat)
    (body : Nat → σ → Option σ) (init : σ) (h0 : P 0 init)
    (hstep : ∀ i s t, i < n → P i s → body i s = some t → P (i + 1) t) :
    ∀ r, forRange n body init = some r → P n r := by
  induction n with
  | zero =>
    intro r hr
    rw [forRange_zero] at hr
    cases hr
    exact h0
  | succ n ih =>
    intro r hr
    rw [forRange_succ] at hr
    obtain ⟨s, hs, hb⟩ := Option.bind_eq_some.mp hr
    have hPs := ih (fun i s t hi => hstep i s t (by omega)) s hs
    exact hstep n s r (Nat.lt_succ_self n) hPs hb

theorem assemble_f_rest_length {F : Type} [FloatOps F] (f_rest_all : List (List F)) (i : Nat)
    (f_rest : List F) (h : assemble_f_rest f_rest_all i = some f_rest) :
    f_rest.length = 45 := by
  unfold assemble_f_rest at h
  refine forRange_induction (fun _ (s : List F) => s.length = 45) 45 _ _
    (List.length_replicate _ _) ?_ f_rest h
  intro j s t _ hs hb
  simp only [Option.bind_eq_bind, Option.bind_eq_some, Option.pure_def, Option.some.injEq]
    at hb
  obtain ⟨col, _, v, _, ht⟩ := hb
  rw [← ht, List.length_set]
  exact hs

theorem assemble_one_f_rest {F : Type} [FloatOps F] (a : Columns F) (i : Nat) (g : Gaussian F)
    (h : assemble_one a i = some g) : g.f_rest.length = 45 := by
  unfold assemble_one at h
  split at h
  · rename_i hf
    cases h
    exact assemble_f_rest_length _ _ _ hf
  · exact absurd h (by simp)

theorem assemble_some_spec {F : Type} [FloatOps F] (a : Columns F) (gs : List (Gaussian F))
    (h : assemble a = some gs) :
    gs.length = a.x.length ∧ ∀ g ∈ gs, g.f_rest.length = 45 := by
  unfold assemble at h
  refine forRange_induction
    (fun n (s : List (Gaussian F)) => s.length = n ∧ ∀ g ∈ s, g.f_rest.length = 45)
    a.x.length _ [] ⟨List.length_nil, fun g hg => absurd hg (List.not_mem_nil g)⟩ ?_ gs h
  · intro i s t _ hs hb
    simp only [Option.bind_eq_bind, Option.bind_eq_some, Option.pure_def, Option.some.injEq]
      at hb
    obtain ⟨g, hg, ht⟩ := hb
    rw [← ht]
    refine ⟨by rw [List.length_append, hs.1]; rfl, ?_⟩
    intro g' hg'
    rcases List.mem_append.mp hg' with hmem | hmem
    · exact hs.2 g' hmem
    · rw [List.mem_singleton.mp hmem]
      exact assemble_one_f_rest a i g hg

/-- C16: whenever the assembler has returned the sequence for arrays of `N < 2 ^ 64`
rows, for every percentage `0 ≤ P ≤ 100` (the product `N * P` wrapped or not) the
`start_index` and `count` that `main` passes satisfy `start_index + count = N`, the
ranked sequence has `N` records, every read `gaussians[start_index + i]` with
`i < count` is inside it, and every read `f_rest[j]` with `j < 45` is inside the
record's `f_rest`, whose length is exactly 45. -/
theorem output_indices_in_bounds {F : Type} [FloatOps F] (a : Columns F)
    (gs : List (Gaussian F)) (p : Int) (hasm : assemble a = some gs)
    (hN : a.x.length < 2 ^ 64) (hp0 : 0 ≤ p) (hp : p ≤ 100) :
    num_to_remove a.x.length p + num_to_keep a.x.length p = a.x.length ∧
    (rank gs).length = a.x.length ∧
    (∀ g ∈ gs, g.f_rest.length = 45) ∧
    ∀ i, i < num_to_keep a.x.length p →
      ∃ g, (rank gs)[(num_to_remove a.x.length p + i) % SIZE_MOD]? = some g ∧
        g.f_rest.length = 45 ∧ ∀ j, j < 45 → ∃ v, g.f_rest[j]? = some v := by
  obtain ⟨hlen, h45⟩ := assemble_some_spec a gs hasm
  have hsum := start_add_count a.x.length p hN hp0 hp
  have hrl : (rank gs).length = a.x.length := by rw [rank_length, hlen]
  refine ⟨hsum, hrl, h45, ?_⟩
  intro i hi
  have hlt : num_to_remove a.x.length p + i < (rank gs).length := by omega
  have hmod : (num_to_remove a.x.length p + i) % SIZE_MOD = num_to_remove a.x.length p + i := by
    apply Nat.mod_eq_of_lt
    unfold SIZE_MOD
    omega
  have hg45 : ((rank gs)[num_to_remove a.x.length p + i]).f_rest.length = 45 :=
    h45 _ ((rank_perm gs).mem_iff.mp (List.getElem_mem hlt))
  refine ⟨(rank gs)[num_to_remove a.x.length p + i], by
    rw [hmod]; exact List.getElem?_eq_getElem hlt, hg45, ?_⟩
  intro j hj
  exact ⟨_, List.getElem?_eq_getElem (by rw [hg45]; exact hj)⟩

/-- Witness of C16: the two-row sample scene and `P = 50`. -/
theorem output_indices_in_bounds_witness :
    (two_rows.x.length < 2 ^ 64 ∧ (0 : Int) ≤ 50 ∧ (50 : Int) ≤ 100) ∧
    ∃ gs, assemble two_rows = some gs ∧
      num_to_remove two_rows.x.length 50 + num_to_keep two_rows.x.length 50 =
        two_rows.x.length ∧
      (rank gs).length = two_rows.x.length ∧ ∀ g ∈ gs, g.f_rest.length = 45 := by
  refine ⟨⟨by decide, by decide, by decide⟩, ?_⟩
  have hasm := assemble_eq two_rows (by decide)
  obtain ⟨h1, h2, h3, _⟩ := output_indices_in_bounds two_rows _ 50 hasm
    (by decide) (by decide) (by decide)
  exact ⟨_, hasm, h1, h2, h3⟩

/-! ## Rounding in binary32 -/

theorem F32.floorExp_ge (n e0 : Nat) (h0 : 1 ≤ e0) (hn : 2 ^ (22 + e0) ≤ n) :
    ∀ e, e0 ≤ e → e0 ≤ F32.floorExp e n := by
  intro e
  induction e with
  | zero => intro h; omega
  | succ e ih =>
    intro h
    unfold F32.floorExp
    split
    · exact h
    · rename_i hlt
      by_cases he : e0 = e + 1
      · subst he
        exact absurd (by rw [show 23 + e = 22 + (e + 1) by omega]; exact hn) hlt
      · exact ih (by omega)

theorem F32.floorExp_le (n e0 : Nat) (hn : n < 2 ^ (23 + e0)) :
    ∀ e, F32.floorExp e n ≤ e0 := by
  intro e
  induction e with
  | zero => exact Nat.zero_le _
  | succ e ih =>
    unfold F32.floorExp
    split
    · rename_i hle
      have hlt : 2 ^ (23 + e) < 2 ^ (23 + e0) := Nat.lt_of_le_of_lt hle hn
      have := (Nat.pow_lt_pow_iff_right (by decide : 1 < 2)).mp hlt
      omega
    · exact ih

theorem F32.floorExp_lt_pow (n : Nat) :
    ∀ e, n < 2 ^ (23 + e) → n < 2 ^ (23 + F32.floorExp e n) := by
  intro e
  induction e with
  | zero => intro h; exact h
  | succ e ih =>
    intro h
    unfold F32.floorExp
    split
    · exact h
    · rename_i hlt
      exact ih (Nat.not_le.mp hlt)

theorem F32.floorExp_pow_le (n : Nat) :
    ∀ e, F32.floorExp e n ≠ 0 → 2 ^ (22 + F32.floorExp e n) ≤ n := by
  intro e
  induction e with
  | zero => intro h; exact absurd rfl h
  | succ e ih =>
    unfold F32.floorExp
    split
    · rename_i hle
      intro _
      rw [show 22 + (e + 1) = 23 + e by omega]
      exact hle
    · exact ih

theorem F32.round_le_inf (p q : Nat) : F32.round p q ≤ F32.INF_MAG := by
  unfold F32.round
  exact Nat.min_le_left _ _

theorem F32.round_ge_one (p q : Nat) (h : 2 ^ 149 ≤ p / q) : F32.ONE_MAG ≤ F32.round p q := by
  have he : 127 ≤ F32.floorExp 254 (p / q) :=
    F32.floorExp_ge (p / q) 127 (by decide) h 254 (by decide)
  unfold F32.round
  simp only []
  have hne : F32.floorExp 254 (p / q) ≠ 0 := by omega
  rw [if_neg hne]
  have h1 : F32.ONE_MAG ≤ F32.floorExp 254 (p / q) * 2 ^ 23 := by
    have : 127 * 2 ^ 23 ≤ F32.floorExp 254 (p / q) * 2 ^ 23 := Nat.mul_le_mul_right _ he
    have h2 : F32.ONE_MAG = 127 * 2 ^ 23 := by decide
    omega
  have h3 : F32.ONE_MAG ≤ F32.INF_MAG := by decide
  exact Nat.le_min.mpr ⟨h3, by omega⟩

theorem F32.round_up_le_one (uq rem2 k : Nat) :
    (if uq < rem2 then 1 else if rem2 = uq then k % 2 else 0) ≤ 1 := by
  split
  · exact Nat.le_refl 1
  · split
    · omega
    · exact Nat.zero_le 1

theorem F32.round_le_one (p q : Nat) (hq : 0 < q) (h : p ≤ 2 ^ 149 * q) :
    F32.round p q ≤ F32.ONE_MAG := by
  have hn : p / q ≤ 2 ^ 149 := by
    apply Nat.div_le_of_le_mul
    rw [Nat.mul_comm]
    exact h
  have hone : F32.ONE_MAG = 127 * 2 ^ 23 := by decide
  by_cases hlt : p / q < 2 ^ 149
  · -- below one: the floor is below `ONE_MAG`, so rounding up reaches it at most
    have he : F32.floorExp 254 (p / q) ≤ 126 := F32.floorExp_le (p / q) 126 hlt 254
    have hpow : p / q < 2 ^ (23 + F32.floorExp 254 (p / q)) :=
      F32.floorExp_lt_pow (p / q) 254
        (Nat.lt_of_lt_of_le hlt (Nat.pow_le_pow_right (by decide) (by decide)))
    unfold F32.round
    simp only []
    refine Nat.le_trans (Nat.min_le_right _ _) ?_
    have hup := F32.round_up_le_one
      (2 ^ (F32.floorExp 254 (p / q) - 1) * q)
      (2 * (p - p / q / 2 ^ (F32.floorExp 254 (p / q) - 1) *
        2 ^ (F32.floorExp 254 (p / q) - 1) * q))
    by_cases he0 : F32.floorExp 254 (p / q) = 0
    · rw [if_pos he0]
      rw [he0] at hpow
      have hk := hup (p / q)
      rw [he0] at hk
      have h23 : (2 : Nat) ^ (23 + 0) = 8388608 := by decide
      rw [he0]
      omega
    · rw [if_neg he0]
      have hm : p / q / 2 ^ (F32.floorExp 254 (p / q) - 1) < 2 ^ 24 := by
        apply Nat.div_lt_of_lt_mul
        have hsplit : 2 ^ (23 + F32.floorExp 254 (p / q)) =
            2 ^ (F32.floorExp 254 (p / q) - 1) * 2 ^ 24 := by
          rw [← Nat.pow_add]
          congr 1
          omega
        rw [← hsplit]
        exact hpow
      have hk := hup (F32.floorExp 254 (p / q) * 2 ^ 23 +
        (p / q / 2 ^ (F32.floorExp 254 (p / q) - 1) - 2 ^ 23))
      have hmul : F32.floorExp 254 (p / q) * 2 ^ 23 ≤ 126 * 2 ^ 23 :=
        Nat.mul_le_mul_right _ he
      omega
  · -- exactly one
    have hn1 : p / q = 2 ^ 149 := by omega
    have hp : p = 2 ^ 149 * q := by
      have h1 : p / q * q ≤ p := Nat.div_mul_le_self p q
      rw [hn1] at h1
      omega
    have he : F32.floorExp 254 (2 ^ 149) = 127 := by decide
    unfold F32.round
    simp only []
    rw [hn1, he]
    have hm : (2 : Nat) ^ 149 / 2 ^ (127 - 1) = 2 ^ 23 := by decide
    rw [hm, hp]
    have hz : 2 ^ 149 * q - 2 ^ 23 * 2 ^ (127 - 1) * q = 0 := by
      have : (2 : Nat) ^ 23 * 2 ^ (127 - 1) = 2 ^ 149 := by decide
      rw [this]
      exact Nat.sub_self _
    rw [hz]
    have hpos : 0 < 2 ^ (127 - 1) * q := Nat.mul_pos (by decide) hq
    simp only [Nat.mul_zero, Nat.not_lt_zero, if_false]
    rw [if_neg (by decide : ¬ (127 = 0)), if_neg (Nat.ne_of_lt hpos)]
    exact Nat.le_trans (Nat.min_le_right _ _) (by decide)

/-! ## Visibility in binary32 -/

theorem F32.scaled_ge_one (m : Nat) (h : F32.ONE_MAG ≤ m) : 2 ^ 149 ≤ F32.scaled m := by
  have hone : F32.ONE_MAG = 127 * 2 ^ 23 := by decide
  have he : 127 ≤ m / 2 ^ 23 := by
    apply (Nat.le_div_iff_mul_le (by decide)).mpr
    omega
  unfold F32.scaled
  rw [if_neg (by omega)]
  have h1 : (2 : Nat) ^ 126 ≤ 2 ^ (m / 2 ^ 23 - 1) :=
    Nat.pow_le_pow_right (by decide) (by omega)
  have h2 : 2 ^ 23 * 2 ^ 126 ≤ (2 ^ 23 + m % 2 ^ 23) * 2 ^ (m / 2 ^ 23 - 1) :=
    Nat.mul_le_mul (Nat.le_add_right _ _) h1
  have h3 : (2 : Nat) ^ 23 * 2 ^ 126 = 2 ^ 149 := by decide
  omega

theorem F32.sigmoid_eq (x : F32) :
    sigmoid x =
      F32.div { sign := false, mag := F32.ONE_MAG }
        (F32.add { sign := false, mag := F32.ONE_MAG } (F32.exp (F32.neg x))) := rfl

theorem F32.neg_isNaN (x : F32) : (F32.neg x).isNaN = x.isNaN := rfl

theorem F32.exp_nonneg (x : F32) (hx : x.isNaN = false) :
    (F32.exp x).sign = false ∧ (F32.exp x).mag ≤ F32.INF_MAG := by
  unfold F32.exp
  rw [hx]
  simp only [Bool.false_eq_true, if_false]
  split
  · split
    · exact ⟨rfl, Nat.zero_le _⟩
    · exact ⟨rfl, Nat.le_refl _⟩
  · split
    · exact ⟨rfl, F32.round_le_inf _ _⟩
    · exact ⟨rfl, F32.round_le_inf _ _⟩

theorem F32.exp_nan (x : F32) (hx : x.isNaN = true) : (F32.exp x).isNaN = true := by
  unfold F32.exp
  rw [hx]
  simp only [if_true]
  exact hx

theorem F32.one_add (e : F32) (hs : e.sign = false) (hm : e.mag ≤ F32.INF_MAG) :
    (F32.add { sign := false, mag := F32.ONE_MAG } e).sign = false ∧
    F32.ONE_MAG ≤ (F32.add { sign := false, mag := F32.ONE_MAG } e).mag ∧
    (F32.add { sign := false, mag := F32.ONE_MAG } e).mag ≤ F32.INF_MAG := by
  have hnan : e.isNaN = false := by
    unfold F32.isNaN
    exact decide_eq_false (Nat.not_lt.mpr hm)
  have h1nan : ({ sign := false, mag := F32.ONE_MAG } : F32).isNaN = false := by decide
  have h1inf : ({ sign := false, mag := F32.ONE_MAG } : F32).isInf = false := by decide
  have hs1 : F32.scaled F32.ONE_MAG = 2 ^ 149 := by decide
  have h1s : F32.signedScaled { sign := false, mag := F32.ONE_MAG } = ((2 ^ 149 : Nat) : Int) := by
    show ((F32.scaled F32.ONE_MAG : Nat) : Int) = _
    rw [hs1]
  have hes : F32.signedScaled e = (F32.scaled e.mag : Int) := by
    unfold F32.signedScaled
    rw [hs]
    rfl
  unfold F32.add
  rw [h1nan, hnan, h1inf]
  simp only [Bool.false_eq_true, if_false]
  by_cases hinf : e.isInf = true
  · rw [if_pos hinf]
    have hmag : e.mag = F32.INF_MAG := of_decide_eq_true hinf
    exact ⟨hs, by rw [hmag]; decide, hm⟩
  · rw [if_neg hinf, h1s, hes, ← Nat.cast_add]
    have hp : 0 < 2 ^ 149 + F32.scaled e.mag :=
      Nat.lt_of_lt_of_le (Nat.pow_pos (by decide)) (Nat.le_add_right _ _)
    have hpos : (0 : Int) < ((2 ^ 149 + F32.scaled e.mag : Nat) : Int) := Int.ofNat_lt.mpr hp
    rw [if_neg (Int.ne_of_gt hpos)]
    refine ⟨decide_eq_false (Int.not_lt.mpr (Int.le_of_lt hpos)), ?_, F32.round_le_inf _ _⟩
    apply F32.round_ge_one
    rw [Nat.div_one, Int.natAbs_ofNat]
    exact Nat.le_add_right _ _

theorem F32.one_div (d : F32) (hs : d.sign = false) (h1 : F32.ONE_MAG ≤ d.mag)
    (hm : d.mag ≤ F32.INF_MAG) :
    (F32.div { sign := false, mag := F32.ONE_MAG } d).sign = false ∧
    (F32.div { sign := false, mag := F32.ONE_MAG } d).mag ≤ F32.ONE_MAG := by
  have hnan : d.isNaN = false := by
    unfold F32.isNaN
    exact decide_eq_false (Nat.not_lt.mpr hm)
  have h1nan : ({ sign := false, mag := F32.ONE_MAG } : F32).isNaN = false := by decide
  have h1inf : ({ sign := false, mag := F32.ONE_MAG } : F32).isInf = false := by decide
  have hone : F32.ONE_MAG = 1065353216 := by decide
  unfold F32.div
  rw [h1nan, hnan, h1inf, hs]
  simp only [Bool.false_eq_true, if_false]
  by_cases hinf : d.isInf = true
  · rw [if_pos hinf]
    exact ⟨rfl, Nat.zero_le _⟩
  · rw [if_neg hinf, if_neg (by omega)]
    refine ⟨rfl, ?_⟩
    have hq := F32.scaled_ge_one d.mag h1
    apply F32.round_le_one
    · exact Nat.lt_of_lt_of_le (by decide) hq
    · have hs1 : F32.scaled F32.ONE_MAG = 2 ^ 149 := by decide
      rw [hs1]
      exact Nat.mul_le_mul_left _ hq

theorem F32.sigmoid_bounds (x : F32) (hx : x.isNaN = false) :
    (sigmoid x).sign = false ∧ (sigmoid x).mag ≤ F32.ONE_MAG := by
  rw [F32.sigmoid_eq]
  have he := F32.exp_nonneg (F32.neg x) (by rw [F32.neg_isNaN]; exact hx)
  have ha := F32.one_add _ he.1 he.2
  exact F32.one_div _ ha.1 ha.2.1 ha.2.2

theorem F32.sigmoid_nan (x : F32) (hx : x.isNaN = true) : (sigmoid x).isNaN = true := by
  rw [F32.sigmoid_eq]
  have he : (F32.exp (F32.neg x)).isNaN = true :=
    F32.exp_nan _ (by rw [F32.neg_isNaN]; exact hx)
  have h1nan : ({ sign := false, mag := F32.ONE_MAG } : F32).isNaN = false := by decide
  have ha : F32.add { sign := false, mag := F32.ONE_MAG } (F32.exp (F32.neg x)) =
      F32.exp (F32.neg x) := by
    unfold F32.add
    rw [h1nan, he]
    simp only [Bool.false_eq_true, if_false, if_true]
  rw [ha]
  unfold F32.div
  rw [h1nan, he]
  simp only [Bool.false_eq_true, if_false, if_true]
  exact he

theorem F32.isNaN_of_mag_le (v : F32) (h : v.mag ≤ F32.ONE_MAG) : v.isNaN = false := by
  unfold F32.isNaN
  have hlt : F32.ONE_MAG < F32.INF_MAG := by decide
  exact decide_eq_false (by omega)

/-- C12 (counterexample): the visibility is not always strictly between 0 and 1.
The logit `17.0f` has the visibility `1.0f` exactly, the logit `+inf` likewise,
the logits `-104.0f` and `-inf` have the visibility `+0.0f` exactly, and a NaN
logit has a NaN visibility, which is neither above 0 nor below 1. -/
theorem visibility_range_counterexample :
    sigmoid (F32.pos 0x41880000) = F32.pos 0x3F800000 ∧
    F32.lt (sigmoid (F32.pos 0x41880000)) (F32.pos 0x3F800000) = false ∧
    sigmoid (F32.pos 0x7F800000) = F32.pos 0x3F800000 ∧
    sigmoid ({ sign := true, mag := 0x42D00000 } : F32) = F32.pos 0 ∧
    F32.lt (F32.pos 0) (sigmoid ({ sign := true, mag := 0x42D00000 } : F32)) = false ∧
    sigmoid ({ sign := true, mag := 0x7F800000 } : F32) = F32.pos 0 ∧
    (sigmoid F32.nan).isNaN = true ∧
    F32.lt (F32.pos 0) (sigmoid F32.nan) = false ∧
    F32.lt (sigmoid F32.nan) (F32.pos 0x3F800000) = false := by
  decide

/-- C12 (amended): the visibility `1.0f / (1.0f + exp(-logit))` computed in binary32
is a NaN exactly when the opacity logit is one, and for every other logit, infinities
included, it lies in the closed interval from `0.0f` to `1.0f`; both ends are
reached. -/
theorem visibility_range (x : F32) :
    (sigmoid x).isNaN = x.isNaN ∧
    (x.isNaN = false →
      F32.le (F32.pos 0) (sigmoid x) = true ∧
      F32.le (sigmoid x) (F32.pos 0x3F800000) = true) := by
  constructor
  · cases hx : x.isNaN
    · exact F32.isNaN_of_mag_le _ (F32.sigmoid_bounds x hx).2
    · exact F32.sigmoid_nan x hx
  · intro hx
    have hb := F32.sigmoid_bounds x hx
    have hn := F32.isNaN_of_mag_le _ hb.2
    have hkey : (sigmoid x).key = ((sigmoid x).mag : Int) := by
      unfold F32.key
      rw [hb.1]
      rfl
    constructor
    · rw [F32.le_iff_key _ _ (by decide) hn, hkey]
      exact Int.ofNat_nonneg _
    · rw [F32.le_iff_key _ _ hn (by decide), hkey]
      exact Int.ofNat_le.mpr hb.2

/-- Witness of C12: the logit `0.0f` is not a NaN and its visibility is `0.5f`
exactly. -/
theorem visibility_range_witness :
    (F32.pos 0).isNaN = false ∧
    sigmoid (F32.pos 0) = F32.pos 0x3F000000 ∧
    (F32.le (F32.pos 0) (sigmoid (F32.pos 0)) = true ∧
      F32.le (sigmoid (F32.pos 0)) (F32.pos 0x3F800000) = true) :=
  ⟨by decide, by decide, (visibility_range (F32.pos 0)).2 (by decide)⟩

/-! ## Rounding is monotone -/

theorem F32.floorExp_le_self (n : Nat) : ∀ e, F32.floorExp e n ≤ e := by
  intro e
  induction e with
  | zero => exact Nat.le_refl _
  | succ e ih =>
    unfold F32.floorExp
    split
    · exact Nat.le_refl _
    · exact Nat.le_succ_of_le ih

theorem F32.floorExp_mono (n n' : Nat) (h : n ≤ n') :
    ∀ e, F32.floorExp e n ≤ F32.floorExp e n' := by
  intro e
  induction e with
  | zero => exact Nat.le_refl _
  | succ e ih =>
    unfold F32.floorExp
    by_cases h1 : 2 ^ (23 + e) ≤ n
    · rw [if_pos h1, if_pos (Nat.le_trans h1 h)]
    · rw [if_neg h1]
      by_cases h2 : 2 ^ (23 + e) ≤ n'
      · rw [if_pos h2]
        exact Nat.le_succ_of_le (F32.floorExp_le_self n e)
      · rw [if_neg h2]
        exact ih

theorem F32.floorExp_lt_of_lt (n : Nat) (h : F32.floorExp 254 n < 254) :
    n < 2 ^ (23 + F32.floorExp 254 n) := by
  apply F32.floorExp_lt_pow n 254
  apply Nat.lt_of_not_le
  intro hge
  have h1 := F32.floorExp_ge n 254 (by decide)
    (Nat.le_trans (Nat.pow_le_pow_right (by decide) (by decide)) hge) 254 (Nat.le_refl _)
  omega

theorem F32.round_up_mono (A u k p q p' q' : Nat) (hq : 0 < q) (hq' : 0 < q')
    (h : p * q' ≤ p' * q) (hA : A * q ≤ p) (hA' : A * q' ≤ p') :
    (if u * q < 2 * (p - A * q) then 1 else if 2 * (p - A * q) = u * q then k % 2 else 0) ≤
    (if u * q' < 2 * (p' - A * q') then 1
      else if 2 * (p' - A * q') = u * q' then k % 2 else 0) := by
  have h3 : 2 * p * q' ≤ 2 * p' * q := by
    rw [Nat.mul_assoc, Nat.mul_assoc]
    exact Nat.mul_le_mul_left 2 h
  have hlt : (u + 2 * A) * q < 2 * p → (u + 2 * A) * q' < 2 * p' := by
    intro h1
    have h2 : (u + 2 * A) * q * q' < 2 * p * q' := Nat.mul_lt_mul_of_pos_right h1 hq'
    have h4 : (u + 2 * A) * q' * q < 2 * p' * q := by
      rw [Nat.mul_right_comm]
      omega
    exact Nat.lt_of_mul_lt_mul_right h4
  have hle : (u + 2 * A) * q = 2 * p → (u + 2 * A) * q' ≤ 2 * p' := by
    intro h1
    have h2 : (u + 2 * A) * q * q' = 2 * p * q' := by rw [h1]
    have h4 : (u + 2 * A) * q' * q ≤ 2 * p' * q := by
      rw [Nat.mul_right_comm]
      omega
    exact Nat.le_of_mul_le_mul_right h4 hq
  have e1 : (u + 2 * A) * q = u * q + 2 * (A * q) := by ring
  have e2 : (u + 2 * A) * q' = u * q' + 2 * (A * q') := by ring
  rw [e1] at hlt hle
  rw [e2] at hlt hle
  have hk : k % 2 ≤ 1 := by omega
  split
  · rename_i c1
    rw [if_pos (by omega)]
  · split
    · rename_i c1 c2
      split
      · exact hk
      · rw [if_pos (by omega)]
    · exact Nat.zero_le _

/-- The sum of floor and round-up bit of `F32.round` grows with the ratio `p / q`:
the core of the monotonicity of rounding to nearest. -/
theorem F32.round_mono (p q p' q' : Nat) (hq : 0 < q) (hq' : 0 < q')
    (h : p * q' ≤ p' * q) : F32.round p q ≤ F32.round p' q' := by
  have hn : p / q ≤ p' / q' := by
    apply (Nat.le_div_iff_mul_le hq').mpr
    have h1 : p / q * q ≤ p := Nat.div_mul_le_self p q
    have h2 : p / q * q' * q ≤ p' * q := by
      rw [Nat.mul_right_comm]
      exact Nat.le_trans (Nat.mul_le_mul_right _ h1) h
    exact Nat.le_of_mul_le_mul_right h2 hq
  have hnp : p / q * q ≤ p := Nat.div_mul_le_self p q
  have hnp' : p' / q' * q' ≤ p' := Nat.div_mul_le_self p' q'
  have hee := F32.floorExp_mono _ _ hn 254
  have hcap' := F32.floorExp_le_self (p' / q') 254
  have hlo := F32.floorExp_pow_le (p / q) 254
  have hlo' := F32.floorExp_pow_le (p' / q') 254
  have hhi := F32.floorExp_lt_of_lt (p / q)
  unfold F32.round
  simp only []
  generalize F32.floorExp 254 (p / q) = e at *
  generalize F32.floorExp 254 (p' / q') = e' at *
  generalize p / q = n at *
  generalize p' / q' = n' at *
  apply min_le_min (Nat.le_refl _)
  have hup := F32.round_up_le_one (2 ^ (e - 1) * q)
    (2 * (p - n / 2 ^ (e - 1) * 2 ^ (e - 1) * q)) (if e = 0 then n else e * 2 ^ 23 + (n / 2 ^ (e - 1) - 2 ^ 23))
  by_cases hlt : e < e'
  · -- a smaller exponent field: even rounded up, the floor stays below
    have hn23 := hhi (by omega)
    have hk' : e' * 2 ^ 23 ≤ (if e' = 0 then n' else e' * 2 ^ 23 + (n' / 2 ^ (e' - 1) - 2 ^ 23)) := by
      rw [if_neg (by omega)]
      exact Nat.le_add_right _ _
    have hk : (if e = 0 then n else e * 2 ^ 23 + (n / 2 ^ (e - 1) - 2 ^ 23)) + 1 ≤ (e + 1) * 2 ^ 23 := by
      by_cases he0 : e = 0
      · rw [if_pos he0]
        rw [he0] at hn23
        rw [he0]
        have h23 : (2 : Nat) ^ (23 + 0) = 8388608 := by decide
        omega
      · rw [if_neg he0]
        have hm : n / 2 ^ (e - 1) < 2 ^ 24 := by
          apply Nat.div_lt_of_lt_mul
          have hsplit : 2 ^ (23 + e) = 2 ^ (e - 1) * 2 ^ 24 := by
            rw [← Nat.pow_add]
            congr 1
            omega
          rw [← hsplit]
          exact hn23
        have : (e + 1) * 2 ^ 23 = e * 2 ^ 23 + 2 ^ 23 := by ring
        omega
    have hmul : (e + 1) * 2 ^ 23 ≤ e' * 2 ^ 23 := Nat.mul_le_mul_right _ hlt
    omega
  · have hee' : e' = e := by omega
    subst hee'
    have hm : n / 2 ^ (e' - 1) ≤ n' / 2 ^ (e' - 1) := Nat.div_le_div_right hn
    by_cases hmlt : n / 2 ^ (e' - 1) < n' / 2 ^ (e' - 1)
    · -- same exponent field, smaller mantissa
      have hk : (if e' = 0 then n else e' * 2 ^ 23 + (n / 2 ^ (e' - 1) - 2 ^ 23)) + 1 ≤
          (if e' = 0 then n' else e' * 2 ^ 23 + (n' / 2 ^ (e' - 1) - 2 ^ 23)) := by
        by_cases he0 : e' = 0
        · rw [if_pos he0, if_pos he0]
          rw [he0] at hmlt
          simpa using hmlt
        · rw [if_neg he0, if_neg he0]
          have h23 : 2 ^ 23 ≤ n / 2 ^ (e' - 1) := by
            apply (Nat.le_div_iff_mul_le (Nat.pow_pos (by decide))).mpr
            rw [← Nat.pow_add]
            have := hlo he0
            rw [show 23 + (e' - 1) = 22 + e' by omega]
            exact this
          omega
      omega
    · -- same floor: the round-up bit decides
      have hmeq : n' / 2 ^ (e' - 1) = n / 2 ^ (e' - 1) := by omega
      have hA : n / 2 ^ (e' - 1) * 2 ^ (e' - 1) * q ≤ p :=
        Nat.le_trans (Nat.mul_le_mul_right _ (Nat.div_mul_le_self _ _)) hnp
      have hA' : n / 2 ^ (e' - 1) * 2 ^ (e' - 1) * q' ≤ p' := by
        rw [← hmeq]
        exact Nat.le_trans (Nat.mul_le_mul_right _ (Nat.div_mul_le_self _ _)) hnp'
      have hkeq : (if e' = 0 then n' else e' * 2 ^ 23 + (n' / 2 ^ (e' - 1) - 2 ^ 23)) =
          (if e' = 0 then n else e' * 2 ^ 23 + (n / 2 ^ (e' - 1) - 2 ^ 23)) := by
        by_cases he0 : e' = 0
        · rw [if_pos he0, if_pos he0]
          rw [he0] at hmeq
          simpa using hmeq
        · rw [if_neg he0, if_neg he0, hmeq]
      rw [hkeq, hmeq]
      exact Nat.add_le_add_left
        (F32.round_up_mono (n / 2 ^ (e' - 1) * 2 ^ (e' - 1)) (2 ^ (e' - 1)) _ p q p' q' hq hq' h hA hA') _

/-! ## The visibility is monotone in the logit -/

theorem F32.scaled_mono (m m' : Nat) (h : m ≤ m') : F32.scaled m ≤ F32.scaled m' := by
  have hE : m / 2 ^ 23 ≤ m' / 2 ^ 23 := Nat.div_le_div_right h
  have hm := Nat.div_add_mod m (2 ^ 23)
  have hm' := Nat.div_add_mod m' (2 ^ 23)
  have hf : m % 2 ^ 23 < 2 ^ 23 := Nat.mod_lt _ (by decide)
  have hf' : m' % 2 ^ 23 < 2 ^ 23 := Nat.mod_lt _ (by decide)
  unfold F32.scaled
  by_cases h0 : m / 2 ^ 23 = 0
  · rw [if_pos h0]
    by_cases h0' : m' / 2 ^ 23 = 0
    · rw [if_pos h0']
      exact h
    · rw [if_neg h0']
      have h1 : m < 2 ^ 23 := by
        rw [h0] at hm
        omega
      have h2 : 2 ^ 23 * 1 ≤ (2 ^ 23 + m' % 2 ^ 23) * 2 ^ (m' / 2 ^ 23 - 1) :=
        Nat.mul_le_mul (Nat.le_add_right _ _) (Nat.pow_pos (by decide))
      omega
  · rw [if_neg h0, if_neg (by omega)]
    by_cases hEq : m / 2 ^ 23 = m' / 2 ^ 23
    · rw [← hEq]
      apply Nat.mul_le_mul_right
      rw [← hEq] at hm'
      omega
    · have hlt : m / 2 ^ 23 - 1 + 1 ≤ m' / 2 ^ 23 - 1 := by omega
      have h1 : (2 ^ 23 + m % 2 ^ 23) * 2 ^ (m / 2 ^ 23 - 1) ≤
          2 ^ 23 * 2 ^ (m / 2 ^ 23 - 1 + 1) := by
        have hp : 2 ^ (m / 2 ^ 23 - 1 + 1) = 2 ^ (m / 2 ^ 23 - 1) * 2 := Nat.pow_succ _ _
        rw [hp]
        generalize 2 ^ (m / 2 ^ 23 - 1) = x
        have hx : (2 ^ 23 + m % 2 ^ 23) * x ≤ 2 ^ 23 * 2 * x :=
          Nat.mul_le_mul_right x (by omega)
        have hy : 2 ^ 23 * (x * 2) = 2 ^ 23 * 2 * x := by ring
        omega
      have h2 : 2 ^ 23 * 2 ^ (m / 2 ^ 23 - 1 + 1) ≤
          (2 ^ 23 + m' % 2 ^ 23) * 2 ^ (m' / 2 ^ 23 - 1) :=
        Nat.mul_le_mul (Nat.le_add_right _ _) (Nat.pow_le_pow_right (by decide) hlt)
      exact Nat.le_trans h1 h2

theorem F32.taylor_fold_mono (t t' : Nat) (h : t ≤ t') (l : List Nat) :
    ∀ acc acc' : Nat × Nat, acc.1 ≤ acc'.1 → acc.2 ≤ acc'.2 →
      (l.foldl (fun (acc : Nat × Nat) k =>
          (acc.1 + acc.2 * t / 2 ^ 200 / (k + 1), acc.2 * t / 2 ^ 200 / (k + 1))) acc).1 ≤
      (l.foldl (fun (acc : Nat × Nat) k =>
          (acc.1 + acc.2 * t' / 2 ^ 200 / (k + 1), acc.2 * t' / 2 ^ 200 / (k + 1))) acc').1 := by
  induction l with
  | nil =>
    intro acc acc' h1 _
    exact h1
  | cons k l ih =>
    intro acc acc' h1 h2
    rw [List.foldl_cons, List.foldl_cons]
    have hterm : acc.2 * t / 2 ^ 200 / (k + 1) ≤ acc'.2 * t' / 2 ^ 200 / (k + 1) :=
      Nat.div_le_div_right (Nat.div_le_div_right (Nat.mul_le_mul h2 h))
    exact ih _ _ (Nat.add_le_add h1 hterm) hterm

theorem F32.taylor_fold_ge (t : Nat) (l : List Nat) :
    ∀ acc : Nat × Nat, acc.1 ≤
      (l.foldl (fun (acc : Nat × Nat) k =>
          (acc.1 + acc.2 * t / 2 ^ 200 / (k + 1), acc.2 * t / 2 ^ 200 / (k + 1))) acc).1 := by
  induction l with
  | nil =>
    intro acc
    exact Nat.le_refl _
  | cons k l ih =>
    intro acc
    rw [List.foldl_cons]
    exact Nat.le_trans (Nat.le_add_right acc.1 (acc.2 * t / 2 ^ 200 / (k + 1)))
      (ih (acc.1 + acc.2 * t / 2 ^ 200 / (k + 1), acc.2 * t / 2 ^ 200 / (k + 1)))

theorem F32.expTaylor_mono (t t' : Nat) (h : t ≤ t') : F32.expTaylor t ≤ F32.expTaylor t' :=
  F32.taylor_fold_mono t t' h _ _ _ (Nat.le_refl _) (Nat.le_refl _)

theorem F32.expTaylor_ge (t : Nat) : 2 ^ 200 ≤ F32.expTaylor t :=
  F32.taylor_fold_ge t (List.range 40) (2 ^ 200, 2 ^ 200)

theorem F32.square_fold_mono {β : Type} (l : List β) :
    ∀ v v' : Nat, v ≤ v' →
      l.foldl (fun v _ => v * v / 2 ^ 200) v ≤ l.foldl (fun v _ => v * v / 2 ^ 200) v' := by
  induction l with
  | nil =>
    intro v v' h
    exact h
  | cons k l ih =>
    intro v v' h
    rw [List.foldl_cons, List.foldl_cons]
    exact ih _ _ (Nat.div_le_div_right (Nat.mul_le_mul h h))

theorem F32.square_fold_ge {β : Type} (l : List β) :
    ∀ v : Nat, 2 ^ 200 ≤ v → 2 ^ 200 ≤ l.foldl (fun v _ => v * v / 2 ^ 200) v := by
  induction l with
  | nil =>
    intro v h
    exact h
  | cons k l ih =>
    intro v h
    rw [List.foldl_cons]
    apply ih
    apply (Nat.le_div_iff_mul_le (Nat.pow_pos (by decide))).mpr
    exact Nat.mul_le_mul h h

theorem F32.expFix_mono (m m' : Nat) (h : m ≤ m') : F32.expFix m ≤ F32.expFix m' :=
  F32.square_fold_mono _ _ _ (F32.expTaylor_mono _ _ (Nat.mul_le_mul_right _ h))

theorem F32.expFix_ge (m : Nat) : 2 ^ 200 ≤ F32.expFix m :=
  F32.square_fold_ge _ _ (F32.expTaylor_ge _)

theorem F32.exp_eq (a : F32) (hn : a.isNaN = false) :
    F32.exp a =
      if 2 ^ 156 ≤ F32.scaled a.mag then
        (if a.sign then { sign := false, mag := 0 } else { sign := false, mag := F32.INF_MAG })
      else if a.sign then
        { sign := false, mag := F32.round (2 ^ 349) (F32.expFix (F32.scaled a.mag)) }
      else { sign := false, mag := F32.round (F32.expFix (F32.scaled a.mag) * 2 ^ 149) (2 ^ 200) } := by
  unfold F32.exp
  rw [hn]
  simp only [Bool.false_eq_true, if_false]

theorem F32.expFix_pos (m : Nat) : 0 < F32.expFix m :=
  Nat.lt_of_lt_of_le (Nat.pow_pos (by decide)) (F32.expFix_ge m)

theorem F32.exp_mag_le_one (a : F32) (hn : a.isNaN = false) (hs : a.sign = true) :
    (F32.exp a).mag ≤ F32.ONE_MAG := by
  rw [F32.exp_eq a hn, hs]
  simp only [if_true]
  split
  · exact Nat.zero_le _
  · apply F32.round_le_one _ _ (F32.expFix_pos _)
    have h := Nat.mul_le_mul_left (2 ^ 149) (F32.expFix_ge (F32.scaled a.mag))
    have e : (2 : Nat) ^ 149 * 2 ^ 200 = 2 ^ 349 := by rw [← Nat.pow_add]
    rw [e] at h
    exact h

theorem F32.exp_mag_ge_one (a : F32) (hn : a.isNaN = false) (hs : a.sign = false) :
    F32.ONE_MAG ≤ (F32.exp a).mag := by
  rw [F32.exp_eq a hn, hs]
  simp only [Bool.false_eq_true, if_false]
  split
  · show F32.ONE_MAG ≤ F32.INF_MAG
    decide
  · apply F32.round_ge_one
    apply (Nat.le_div_iff_mul_le (Nat.pow_pos (by decide))).mpr
    rw [Nat.mul_comm]
    exact Nat.mul_le_mul_right _ (F32.expFix_ge _)

theorem F32.exp_mono (a b : F32) (hna : a.isNaN = false) (hnb : b.isNaN = false)
    (h : a.key ≤ b.key) : (F32.exp a).mag ≤ (F32.exp b).mag := by
  cases hsa : a.sign <;> cases hsb : b.sign
  · -- both non-negative
    have hm : a.mag ≤ b.mag := by
      unfold F32.key at h
      rw [hsa, hsb] at h
      simpa using h
    have hsc := F32.scaled_mono _ _ hm
    rw [F32.exp_eq a hna, F32.exp_eq b hnb, hsa, hsb]
    simp only [Bool.false_eq_true, if_false]
    by_cases hb : 2 ^ 156 ≤ F32.scaled b.mag
    · rw [if_pos hb]
      split
      · exact Nat.le_refl _
      · exact F32.round_le_inf _ _
    · rw [if_neg hb, if_neg (by omega)]
      apply F32.round_mono _ _ _ _ (Nat.pow_pos (by decide)) (Nat.pow_pos (by decide))
      exact Nat.mul_le_mul_right _ (Nat.mul_le_mul_right _ (F32.expFix_mono _ _ hsc))
  · -- a non-negative, b negative: both are zeros
    have hm : a.mag = 0 ∧ b.mag = 0 := by
      unfold F32.key at h
      rw [hsa, hsb] at h
      simp only [Bool.false_eq_true, if_false, if_true] at h
      omega
    have ea : a = { sign := false, mag := 0 } := by
      cases a
      simp only [F32.mk.injEq]
      exact ⟨hsa, hm.1⟩
    have eb : b = { sign := true, mag := 0 } := by
      cases b
      simp only [F32.mk.injEq]
      exact ⟨hsb, hm.2⟩
    rw [ea, eb]
    decide
  · exact Nat.le_trans (F32.exp_mag_le_one a hna hsa) (F32.exp_mag_ge_one b hnb hsb)
  · -- both negative
    have hm : b.mag ≤ a.mag := by
      unfold F32.key at h
      rw [hsa, hsb] at h
      simp only [if_true] at h
      omega
    have hsc := F32.scaled_mono _ _ hm
    rw [F32.exp_eq a hna, F32.exp_eq b hnb, hsa, hsb]
    simp only [if_true]
    by_cases ha : 2 ^ 156 ≤ F32.scaled a.mag
    · rw [if_pos ha]
      exact Nat.zero_le _
    · rw [if_neg ha, if_neg (by omega)]
      apply F32.round_mono _ _ _ _ (F32.expFix_pos _) (F32.expFix_pos _)
      exact Nat.mul_le_mul_left _ (F32.expFix_mono _ _ hsc)

theorem F32.one_add_mag (e : F32) (hs : e.sign = false) (hm : e.mag ≤ F32.INF_MAG) :
    (F32.add { sign := false, mag := F32.ONE_MAG } e).mag =
      if e.mag = F32.INF_MAG then F32.INF_MAG else F32.round (2 ^ 149 + F32.scaled e.mag) 1 := by
  have hnan : e.isNaN = false := by
    unfold F32.isNaN
    exact decide_eq_false (Nat.not_lt.mpr hm)
  have h1nan : ({ sign := false, mag := F32.ONE_MAG } : F32).isNaN = false := by decide
  have h1inf : ({ sign := false, mag := F32.ONE_MAG } : F32).isInf = false := by decide
  have hs1 : F32.scaled F32.ONE_MAG = 2 ^ 149 := by decide
  have h1s : F32.signedScaled { sign := false, mag := F32.ONE_MAG } = ((2 ^ 149 : Nat) : Int) := by
    show ((F32.scaled F32.ONE_MAG : Nat) : Int) = _
    rw [hs1]
  have hes : F32.signedScaled e = (F32.scaled e.mag : Int) := by
    unfold F32.signedScaled
    rw [hs]
    rfl
  unfold F32.add
  rw [h1nan, hnan, h1inf]
  simp only [Bool.false_eq_true, if_false]
  by_cases hinf : e.mag = F32.INF_MAG
  · have hi : e.isInf = true := decide_eq_true hinf
    rw [if_pos hi, if_pos hinf]
    exact hinf
  · have hi : ¬ e.isInf = true := fun hc => hinf (of_decide_eq_true hc)
    rw [if_neg hi, if_neg hinf, h1s, hes, ← Nat.cast_add]
    have hp : 0 < 2 ^ 149 + F32.scaled e.mag :=
      Nat.lt_of_lt_of_le (Nat.pow_pos (by decide)) (Nat.le_add_right _ _)
    have hpos : (0 : Int) < ((2 ^ 149 + F32.scaled e.mag : Nat) : Int) := Int.ofNat_lt.mpr hp
    rw [if_neg (Int.ne_of_gt hpos), Int.natAbs_ofNat]

theorem F32.one_add_mono (e e' : F32) (hs : e.sign = false) (hs' : e'.sign = false)
    (hm' : e'.mag ≤ F32.INF_MAG) (h : e.mag ≤ e'.mag) :
    (F32.add { sign := false, mag := F32.ONE_MAG } e).mag ≤
      (F32.add { sign := false, mag := F32.ONE_MAG } e').mag := by
  rw [F32.one_add_mag e hs (Nat.le_trans h hm'), F32.one_add_mag e' hs' hm']
  by_cases hinf' : e'.mag = F32.INF_MAG
  · rw [if_pos hinf']
    split
    · exact Nat.le_refl _
    · exact F32.round_le_inf _ _
  · rw [if_neg hinf', if_neg (by omega)]
    apply F32.round_mono _ _ _ _ (by decide) (by decide)
    exact Nat.mul_le_mul_right _ (Nat.add_le_add_left (F32.scaled_mono _ _ h) _)

theorem F32.one_div_mag (d : F32) (hs : d.sign = false) (h1 : F32.ONE_MAG ≤ d.mag)
    (hm : d.mag ≤ F32.INF_MAG) :
    (F32.div { sign := false, mag := F32.ONE_MAG } d).mag =
      if d.mag = F32.INF_MAG then 0 else F32.round (2 ^ 149 * 2 ^ 149) (F32.scaled d.mag) := by
  have hnan : d.isNaN = false := by
    unfold F32.isNaN
    exact decide_eq_false (Nat.not_lt.mpr hm)
  have h1nan : ({ sign := false, mag := F32.ONE_MAG } : F32).isNaN = false := by decide
  have h1inf : ({ sign := false, mag := F32.ONE_MAG } : F32).isInf = false := by decide
  have hone : F32.ONE_MAG = 1065353216 := by decide
  have hs1 : F32.scaled F32.ONE_MAG = 2 ^ 149 := by decide
  unfold F32.div
  rw [h1nan, hnan, h1inf, hs]
  simp only [Bool.false_eq_true, if_false]
  by_cases hinf : d.mag = F32.INF_MAG
  · have hi : d.isInf = true := decide_eq_true hinf
    rw [if_pos hi, if_pos hinf]
  · have hi : ¬ d.isInf = true := fun hc => hinf (of_decide_eq_true hc)
    rw [if_neg hi, if_neg hinf, if_neg (by omega), hs1]

theorem F32.one_div_anti (d d' : F32) (hs : d.sign = false) (hs' : d'.sign = false)
    (h1 : F32.ONE_MAG ≤ d.mag) (hm' : d'.mag ≤ F32.INF_MAG) (h : d.mag ≤ d'.mag) :
    (F32.div { sign := false, mag := F32.ONE_MAG } d').mag ≤
      (F32.div { sign := false, mag := F32.ONE_MAG } d).mag := by
  rw [F32.one_div_mag d hs h1 (Nat.le_trans h hm'),
    F32.one_div_mag d' hs' (Nat.le_trans h1 h) hm']
  by_cases hinf' : d'.mag = F32.INF_MAG
  · rw [if_pos hinf']
    exact Nat.zero_le _
  · rw [if_neg hinf', if_neg (by omega)]
    have hq := F32.scaled_ge_one d.mag h1
    have hq' := F32.scaled_ge_one d'.mag (Nat.le_trans h1 h)
    apply F32.round_mono _ _ _ _ (Nat.lt_of_lt_of_le (Nat.pow_pos (by decide)) hq')
      (Nat.lt_of_lt_of_le (Nat.pow_pos (by decide)) hq)
    exact Nat.mul_le_mul_left _ (F32.scaled_mono _ _ h)

theorem F32.neg_key (x : F32) : (F32.neg x).key = -x.key := by
  unfold F32.neg F32.key
  cases x.sign <;> simp

theorem F32.sigmoid_mag_mono (x y : F32) (hx : x.isNaN = false) (hy : y.isNaN = false)
    (h : x.key ≤ y.key) : (sigmoid x).mag ≤ (sigmoid y).mag := by
  rw [F32.sigmoid_eq, F32.sigmoid_eq]
  have hnx : (F32.neg x).isNaN = false := by rw [F32.neg_isNaN]; exact hx
  have hny : (F32.neg y).isNaN = false := by rw [F32.neg_isNaN]; exact hy
  have hk : (F32.neg y).key ≤ (F32.neg x).key := by
    rw [F32.neg_key, F32.neg_key]
    omega
  have he := F32.exp_mono _ _ hny hnx hk
  have hex := F32.exp_nonneg _ hnx
  have hey := F32.exp_nonneg _ hny
  have ha := F32.one_add_mono _ _ hey.1 hex.1 hex.2 he
  have hax := F32.one_add _ hex.1 hex.2
  have hay := F32.one_add _ hey.1 hey.2
  exact F32.one_div_anti _ _ hay.1 hax.1 hay.2.1 hax.2.2 ha

theorem F32.sigmoid_key (x : F32) (hx : x.isNaN = false) :
    (sigmoid x).key = ((sigmoid x).mag : Int) := by
  unfold F32.key
  rw [(F32.sigmoid_bounds x hx).1]
  rfl

theorem F32.sigmoid_isNaN (x : F32) (hx : x.isNaN = false) : (sigmoid x).isNaN = false :=
  F32.isNaN_of_mag_le _ (F32.sigmoid_bounds x hx).2

theorem F32.sigmoid_le (x y : F32) (hx : x.isNaN = false) (hy : y.isNaN = false)
    (h : F32.le x y = true) : F32.le (sigmoid x) (sigmoid y) = true := by
  rw [F32.le_iff_key _ _ hx hy] at h
  rw [F32.le_iff_key _ _ (F32.sigmoid_isNaN x hx) (F32.sigmoid_isNaN y hy),
    F32.sigmoid_key x hx, F32.sigmoid_key y hy]
  exact Int.ofNat_le.mpr (F32.sigmoid_mag_mono x y hx hy h)

theorem F32.sigmoid_lt (x y : F32) (hx : x.isNaN = false) (hy : y.isNaN = false)
    (h : F32.lt (sigmoid x) (sigmoid y) = true) : F32.lt x y = true := by
  rw [F32.lt_iff_key _ _ (F32.sigmoid_isNaN x hx) (F32.sigmoid_isNaN y hy),
    F32.sigmoid_key x hx, F32.sigmoid_key y hy] at h
  rw [F32.lt_iff_key _ _ hx hy]
  apply Int.lt_of_not_ge
  intro hge
  have := F32.sigmoid_mag_mono y x hy hx hge
  omega

/-! ## Visibility against the raw logit -/

/-- C11 (counterexample): the logits `17.0f` and `20.0f` differ, yet both have the
visibility `1.0f`, so the smaller logit does not have the smaller visibility; the
scene whose rows hold the logits `20.0f`, `17.0f` in this order is ranked as
`20.0f`, `17.0f`, which is not ascending in the raw logit, while the scene with the
rows `17.0f`, `20.0f` is ranked as `17.0f`, `20.0f`. -/
theorem logit_order_counterexample :
    F32.lt (F32.pos 0x41880000) (F32.pos 0x41A00000) = true ∧
    sigmoid (F32.pos 0x41880000) = F32.pos 0x3F800000 ∧
    sigmoid (F32.pos 0x41A00000) = F32.pos 0x3F800000 ∧
    F32.lt (sigmoid (F32.pos 0x41880000)) (sigmoid (F32.pos 0x41A00000)) = false ∧
    (assemble saturated_rows_20_17).map
        (fun gs => (rank gs).map (fun g => (g.opacity_logit, g.actual_opacity))) =
      some [(F32.pos 0x41A00000, F32.pos 0x3F800000), (F32.pos 0x41880000, F32.pos 0x3F800000)] ∧
    (assemble saturated_rows_17_20).map
        (fun gs => (rank gs).map (fun g => (g.opacity_logit, g.actual_opacity))) =
      some [(F32.pos 0x41880000, F32.pos 0x3F800000), (F32.pos 0x41A00000, F32.pos 0x3F800000)] := by
  decide

theorem F32.eq_of_sign_mag (u v : F32) (hs : u.sign = v.sign) (hm : u.mag = v.mag) : u = v := by
  cases u
  cases v
  simp only [F32.mk.injEq]
  exact ⟨hs, hm⟩

theorem F32.sigmoid_tie (x y : F32) (hx : x.isNaN = false) (hy : y.isNaN = false)
    (hlt : F32.lt y x = true) (hle : F32.le (sigmoid x) (sigmoid y) = true) :
    sigmoid x = sigmoid y := by
  rw [F32.lt_iff_key _ _ hy hx] at hlt
  rw [F32.le_iff_key _ _ (F32.sigmoid_isNaN x hx) (F32.sigmoid_isNaN y hy),
    F32.sigmoid_key x hx, F32.sigmoid_key y hy] at hle
  have h1 := F32.sigmoid_mag_mono y x hy hx (Int.le_of_lt hlt)
  apply F32.eq_of_sign_mag
  · rw [(F32.sigmoid_bounds x hx).1, (F32.sigmoid_bounds y hy).1]
  · omega

/-- C11 (amended): the visibility is non-decreasing, not strictly increasing, in the
opacity logit. For records whose `actual_opacity` is computed as in `main` from
logits that are not NaN: a logit less than or equal to another has a visibility less
than or equal to the other; a strictly smaller visibility comes from a strictly
smaller logit; and in the ranked sequence a record stands before a record of
strictly smaller logit only when both have the same visibility. -/
theorem visibility_monotone (gs : List (Gaussian F32))
    (hvis : ∀ g ∈ gs, g.actual_opacity = sigmoid g.opacity_logit)
    (hnan : ∀ g ∈ gs, g.opacity_logit.isNaN = false) :
    (∀ a ∈ gs, ∀ b ∈ gs,
      (F32.le a.opacity_logit b.opacity_logit = true →
        F32.le a.actual_opacity b.actual_opacity = true) ∧
      (F32.lt a.actual_opacity b.actual_opacity = true →
        F32.lt a.opacity_logit b.opacity_logit = true)) ∧
    (rank gs).Pairwise (fun a b =>
      F32.le a.actual_opacity b.actual_opacity = true ∧
      (F32.lt b.opacity_logit a.opacity_logit = true →
        a.actual_opacity = b.actual_opacity)) := by
  constructor
  · intro a ha b hb
    rw [hvis a ha, hvis b hb]
    exact ⟨F32.sigmoid_le _ _ (hnan a ha) (hnan b hb),
      F32.sigmoid_lt _ _ (hnan a ha) (hnan b hb)⟩
  · have hs := rank_sorted gs (fun g hg => by
      rw [hvis g hg]
      exact F32.sigmoid_isNaN _ (hnan g hg))
    refine List.Pairwise.imp_of_mem ?_ hs
    intro a b ha hb hle
    have ha' : a ∈ gs := (rank_perm gs).mem_iff.mp ha
    have hb' : b ∈ gs := (rank_perm gs).mem_iff.mp hb
    refine ⟨hle, fun hlt => ?_⟩
    rw [hvis a ha', hvis b hb'] at hle ⊢
    exact F32.sigmoid_tie _ _ (hnan a ha') (hnan b hb') hlt hle

/-- Witness of C11: the records of the logits `3.0f` and `0.0f` are ranked `0.0f`,
`3.0f`. -/
theorem visibility_monotone_witness :
    (∀ g ∈ sigmoid_points, g.actual_opacity = sigmoid g.opacity_logit) ∧
    (∀ g ∈ sigmoid_points, g.opacity_logit.isNaN = false) ∧
    (rank sigmoid_points).map (fun g => g.opacity_logit) = [F32.pos 0, F32.pos 0x40400000] ∧
    ((∀ a ∈ sigmoid_points, ∀ b ∈ sigmoid_points,
      (F32.le a.opacity_logit b.opacity_logit = true →
        F32.le a.actual_opacity b.actual_opacity = true) ∧
      (F32.lt a.actual_opacity b.actual_opacity = true →
        F32.lt a.opacity_logit b.opacity_logit = true)) ∧
    (rank sigmoid_points).Pairwise (fun a b =>
      F32.le a.actual_opacity b.actual_opacity = true ∧
      (F32.lt b.opacity_logit a.opacity_logit = true →
        a.actual_opacity = b.actual_opacity))) :=
  ⟨by decide, by decide, by decide,
    visibility_monotone sigmoid_points (by decide) (by decide)⟩

end PruneOpacity
